import Mathlib

/-!
Verification of the Orbiter website worker (src/src/index.ts, second handler
variant, lines 808-1105) against its natural-language specification.

The embedding works on `List Char`, mirroring the JavaScript string operations
character by character.  Backend fetches are modelled by oracles
`List Char → Bool` (success of a GET/HEAD at a URL) plus functions for the
response headers that the worker reads.
-/

namespace OrbiterWorker

/-- Characters of a Lean string literal; used to write the JavaScript string
literals of the source as `List Char`. -/
def str (s : String) : List Char := s.data

/-- JavaScript `s.startsWith(p)` on character lists. -/
def jsStartsWith (p s : List Char) : Bool := List.isPrefixOf p s

/-- JavaScript `s.endsWith(p)` on character lists. -/
def jsEndsWith (p s : List Char) : Bool := List.isSuffixOf p s

/-- JavaScript `s.includes(c)` for a single character. -/
def jsIncludesChar (c : Char) (s : List Char) : Bool := s.contains c

/-- JavaScript substring containment `s.includes(p)`. -/
def jsIncludes (p s : List Char) : Bool := decide (p <:+: s)

/-- JavaScript `p.substring(0, p.lastIndexOf('/') + 1)`: the prefix of `p` up to
and including the last '/', or `[]` when `p` contains no '/' (in which case
`lastIndexOf` is -1 and the substring is empty). -/
def upToLastSlash (p : List Char) : List Char :=
  (p.reverse.dropWhile (fun c => !(c == '/'))).reverse

/-- Referrer-directory computation (index.ts lines 960-966): if the referrer
path contains a '.' and does not end with '/', strip the trailing file
component; otherwise ensure the path ends with '/'. -/
def refererDir (p : List Char) : List Char :=
  if jsIncludesChar '.' p && !(jsEndsWith (str "/") p) then upToLastSlash p
  else if !(jsEndsWith (str "/") p) then p ++ str "/"
  else p

/-- Cleaned request path (index.ts lines 956-972): strip a leading slash from
the request path; when a referrer is present whose path is not "/" and the
request path is not "/", and the request path is a bare relative path (no
leading slash), the referrer directory (with its own leading slash stripped)
is prefixed. -/
def cleanPathOf (pathName : List Char) (refPath : Option (List Char)) : List Char :=
  let cp := if jsStartsWith (str "/") pathName then pathName.drop 1 else pathName
  match refPath with
  | none => cp
  | some rp =>
    if rp ≠ str "/" ∧ pathName ≠ str "/" then
      let rd := refererDir rp
      if !(jsStartsWith (str "/") pathName) then
        (if jsStartsWith (str "/") rd then rd.drop 1 else rd) ++ cp
      else cp
    else cp

/-- Ordered candidate object keys implicit in the fetch sequence of index.ts
lines 974-996: for a non-root path without '.', the directory index and the
.html fallback; for a path with '.', the path itself; for the root, index.html. -/
def candidateKeys (pathName cleanPath : List Char) : List (List Char) :=
  if pathName ≠ [] ∧ pathName ≠ str "/" then
    if !(jsIncludesChar '.' cleanPath) then
      [cleanPath ++ str "/index.html", cleanPath ++ str ".html"]
    else [cleanPath]
  else [str "index.html"]

/-- Content resolution (index.ts lines 974-996, non-ranged case), translated
literally from the nested conditionals: the ordered list of URLs fetched
together with the final `response.ok`. -/
def resolveSeq (ok : List Char → Bool) (gw pathName cleanPath : List Char) :
    List (List Char) × Bool :=
  if pathName ≠ [] ∧ pathName ≠ str "/" then
    if !(jsIncludesChar '.' cleanPath) then
      let u1 := gw ++ str "/" ++ cleanPath ++ str "/index.html"
      if ok u1 then ([u1], true)
      else
        let u2 := gw ++ str "/" ++ cleanPath ++ str ".html"
        ([u1, u2], ok u2)
    else
      let u := gw ++ str "/" ++ cleanPath
      ([u], ok u)
  else
    let u := gw ++ str "/index.html"
    ([u], ok u)

/-- First-success traversal of an ordered candidate URL list: fetch each in
order, short-circuiting on the first success; the result records the URLs
actually fetched and whether the accepted response was successful. -/
def fetchFirst (ok : List Char → Bool) : List (List Char) → List (List Char) × Bool
  | [] => ([], false)
  | u :: us =>
    if ok u then ([u], true)
    else
      let r := fetchFirst ok us
      match us with
      | [] => ([u], false)
      | _ :: _ => (u :: r.1, r.2)

/-- Specification-side referrer directory, written from the spec sentence:
truncate after the last slash when the referrer path contains a '.' segment,
otherwise ensure a trailing slash. -/
def specReferrerDir (p : List Char) : List Char :=
  if jsIncludesChar '.' p then upToLastSlash p
  else if jsEndsWith (str "/") p then p else p ++ str "/"

/-! Decimal numerals: JavaScript renders nonnegative integers in decimal and
`parseInt` reads decimal digit runs.  `natRepr` is the rendering (fuel-based so
that it reduces by kernel evaluation), `digitsToNat` the parse. -/
/-- JavaScript `parseInt` on a decimal digit string. -/
def digitsToNat (ds : List Char) : Nat :=
  ds.foldl (fun a c => 10 * a + (c.toNat - 48)) 0

/-- Fuel-based accumulator loop producing the decimal digits of `n` in front of
`acc`. -/
def natReprGo : Nat → Nat → List Char → List Char
  | 0, _, acc => acc
  | f + 1, n, acc =>
    if n = 0 then acc else natReprGo f (n / 10) (Nat.digitChar (n % 10) :: acc)

/-- Decimal rendering of a natural number. -/
def natRepr (n : Nat) : List Char :=
  if n = 0 then ['0'] else natReprGo (n + 1) n []

/-! Range requests (index.ts lines 461-548). -/
/-- One attempt of the regex `bytes=(\d+)-(\d*)` at the current position:
the literal bytes=, a nonempty digit run, '-', then a possibly empty digit
run; returns the two capture groups. -/
def rangeMatchAt (s : List Char) : Option (List Char × List Char) :=
  if jsStartsWith (str "bytes=") s then
    if (s.drop 6).takeWhile Char.isDigit = [] then none
    else
      match (s.drop 6).dropWhile Char.isDigit with
      | '-' :: t2 => some ((s.drop 6).takeWhile Char.isDigit, t2.takeWhile Char.isDigit)
      | _ => none
  else none

/-- Left-to-right scan of the unanchored regex; the first matching position
wins, as with JavaScript `String.match`. -/
def rangeScan : List Char → Option (List Char × List Char)
  | [] => none
  | c :: cs =>
    match rangeMatchAt (c :: cs) with
    | some r => some r
    | none => rangeScan cs

/-- parseRangeHeader (index.ts lines 461-473): match `bytes=(\d+)-(\d*)`
anywhere in the header; start is group 1; end is group 2 when nonempty
(JavaScript: a nonempty capture is truthy), else contentLength-1; reject when
start or end reach contentLength or start exceeds end. -/
def parseRangeHeader (rangeHeader : List Char) (contentLength : Nat) :
    Option (Nat × Nat) :=
  match rangeScan rangeHeader with
  | none => none
  | some (d1, d2) =>
    let s := digitsToNat d1
    let e := if d2 = [] then contentLength - 1 else digitsToNat d2
    if s ≥ contentLength ∨ e ≥ contentLength ∨ s > e then none
    else some (s, e)

/-- Response model: status code, ordered header list, body text.  Streamed
bodies that the worker forwards untouched are modelled as `[]`. -/
structure Resp where
  status : Nat
  headers : List (List Char × List Char)
  body : List Char
deriving DecidableEq

/-- Header lookup by name, first match. -/
def lookupHdr : List (List Char × List Char) → List Char → Option (List Char)
  | [], _ => none
  | (k, v) :: t, nm => if k = nm then some v else lookupHdr t nm

/-- Header lookup on a response. -/
def lookupHeader (r : Resp) (nm : List Char) : Option (List Char) :=
  lookupHdr r.headers nm

/-- Headers of the 206 partial-content response (index.ts lines 535-547). -/
def range206Headers (ct : List Char) (startB endB size : Nat)
    (cid contract : List Char) : List (List Char × List Char) :=
  [(str "Content-Type", ct),
   (str "Content-Length", natRepr (endB - startB + 1)),
   (str "Content-Range",
     str "bytes " ++ natRepr startB ++ str "-" ++ natRepr endB ++ str "/" ++ natRepr size),
   (str "Accept-Ranges", str "bytes"),
   (str "Cache-Control", str "public, max-age=3600"),
   (str "Powered-By", str "Orbiter"),
   (str "orb-cid", cid),
   (str "orb-contract", contract)]

/-- Headers of the two full-object fallback responses inside handleRangeRequest
(index.ts lines 491-502 and 518-529). -/
def rangeFullHeaders (ct cl cid contract : List Char) :
    List (List Char × List Char) :=
  [(str "Content-Type", ct),
   (str "Content-Length", cl),
   (str "Accept-Ranges", str "bytes"),
   (str "Cache-Control", str "public, max-age=3600"),
   (str "Powered-By", str "Orbiter"),
   (str "orb-cid", cid),
   (str "orb-contract", contract)]

/-- handleRangeRequest (index.ts lines 476-548).  `headOk` is the success of
the HEAD probe at the object URL; `sizeHdr` is the probe's Content-Length
header parsed as a number (`none` when absent; the code defaults the raw
header to "0"); `rangeOk` is the success of the ranged re-fetch; `ct` the
upstream Content-Type header; `fullCL` the Content-Length header of the
full-object re-fetch in the indeterminate-size fallback. -/
def handleRangeRequest (headOk : Bool) (sizeHdr : Option Nat) (rangeOk : Bool)
    (ct : Option (List Char)) (fullCL : Option (List Char))
    (rangeHeader cid contract : List Char) : Resp :=
  if !headOk then ⟨404, [], str "File not found"⟩
  else
    let contentLength := sizeHdr.getD 0
    if contentLength = 0 then
      ⟨200, rangeFullHeaders (ct.getD (str "application/octet-stream"))
          (fullCL.getD (str "0")) cid contract, []⟩
    else
      match parseRangeHeader rangeHeader contentLength with
      | none => ⟨416, [], str "Invalid range"⟩
      | some (s, e) =>
        if !rangeOk then
          ⟨200, rangeFullHeaders (ct.getD (str "application/octet-stream"))
              (natRepr contentLength) cid contract, []⟩
        else
          ⟨206, range206Headers (ct.getD (str "application/octet-stream"))
              s e contentLength cid contract, []⟩

/-! Redirect rules (index.ts lines 891-943). -/
/-- Tenant redirect rule as stored in the REDIRECTS KV namespace. -/
structure Redirect where
  source : List Char
  destination : List Char
  status : Option Nat
  force : Bool
deriving DecidableEq

/-- Effective redirect status: JavaScript `redirect?.status || 301` treats an
absent or zero status as 301. -/
def effStatus (r : Redirect) : Nat :=
  match r.status with
  | none => 301
  | some s => if s = 0 then 301 else s

/-- Simplified model of the WHATWG URL parse at index.ts lines 907-909: for an
absolute http(s) URL, pathname + search + hash.  `none` models a parse failure
(`new URL` throwing).  Modelled for well-formed URLs: the authority runs to the
first of '/', '?' or '#' and must be nonempty; the remainder is returned with a
leading '/' ensured (the pathname defaults to "/"). -/
def urlPQF (d : List Char) : Option (List Char) :=
  match (if jsStartsWith (str "http://") d then some (d.drop 7)
         else if jsStartsWith (str "https://") d then some (d.drop 8)
         else none) with
  | none => none
  | some t =>
    if t.takeWhile (fun c => !(c == '/' || c == '?' || c == '#')) = [] then none
    else
      match t.dropWhile (fun c => !(c == '/' || c == '?' || c == '#')) with
      | [] => some (str "/")
      | '/' :: rest => some ('/' :: rest)
      | c :: rest => some ('/' :: c :: rest)

/-- Normalized destination path used by the self-redirect guard (index.ts
lines 905-915): absolute URLs are reduced to path+search+hash (left unchanged
when the parse fails); other destinations get a leading slash ensured. -/
def destPathOf (d : List Char) : List Char :=
  if jsStartsWith (str "http://") d || jsStartsWith (str "https://") d then
    match urlPQF d with
    | some p => p
    | none => d
  else if !(jsStartsWith (str "/") d) then '/' :: d
  else d

/-- Normalized source path (index.ts line 902): a leading slash is ensured. -/
def sourcePathOf (s : List Char) : List Char :=
  if jsStartsWith (str "/") s then s else '/' :: s

/-- Location header value for a matched rule (index.ts lines 922-926):
relative destinations are made absolute against the original host. -/
def locationOf (proto originalHost d : List Char) : List Char :=
  if !(jsStartsWith (str "http://") d) && !(jsStartsWith (str "https://") d) then
    proto ++ str "//" ++ originalHost ++
      (if jsStartsWith (str "/") d then [] else str "/") ++ d
  else d

/-- Redirect matching loop (index.ts lines 901-941): a rule whose normalized
destination equals the current path is skipped (self-redirect guard);
otherwise a rule matches on path equality with its normalized source or, when
force is set, on the source being a prefix; the first match wins. -/
def matchRedirects (pathName : List Char) : List Redirect → Option Redirect
  | [] => none
  | r :: rs =>
    if pathName = destPathOf r.destination then matchRedirects pathName rs
    else if pathName = sourcePathOf r.source ∨
        (r.force = true ∧ jsStartsWith (sourcePathOf r.source) pathName = true) then
      some r
    else matchRedirects pathName rs

/-- Redirect response (index.ts lines 928-939). -/
def redirectResp (proto originalHost : List Char) (r : Redirect)
    (siteCid contract domainType : List Char) : Resp :=
  ⟨effStatus r,
   [(str "Location", locationOf proto originalHost r.destination),
    (str "Cache-Control", str "public, max-age=3600"),
    (str "Powered-By", str "Orbiter"),
    (str "orb-cid", siteCid),
    (str "orb-contract", contract),
    (str "orb-domain-type", domainType)], []⟩

/-! HTML link rewriting (index.ts lines 1033-1074). -/
/-- The double-quote character. -/
def dquote : Char := Char.ofNat 34

/-- The single-quote character. -/
def squote : Char := Char.ofNat 39

/-- The newline character. -/
def nl : Char := Char.ofNat 10

/-- Quote characters excluded by the attribute-value character class. -/
def isQuoteC (c : Char) : Bool := c == dquote || c == squote

/-- The alternatives of the negative lookahead
(?!http|\/\/|data:|#|mailto:) of the rewriting regex. -/
def forb : List (List Char) :=
  [str "http", str "//", str "data:", str "#", str "mailto:"]

/-- The negative lookahead: none of the forbidden alternatives is a prefix. -/
def lookaheadOK (s : List Char) : Bool := forb.all (fun f => !(jsStartsWith f s))

/-- The (src|href)= alternation of the rewriting regex, tried in order at the
current position; returns the attribute name and the remaining characters. -/
def attrSplit (s : List Char) : Option (List Char × List Char) :=
  if jsStartsWith (str "src=") s then some (str "src", s.drop 4)
  else if jsStartsWith (str "href=") s then some (str "href", s.drop 5)
  else none

/-- One match of the regex (src|href)=("|')(?!http|\/\/|data:|#|mailto:)([^"']*)("|')
at the current position: attribute, opening quote, value (the maximal quote-free
run), closing quote and the remaining input. -/
structure AMatch where
  attr : List Char
  q : Char
  path : List Char
  q2 : Char
  rest : List Char
deriving DecidableEq

/-- Attempt the rewriting regex at the current position. -/
def tryMatch (s : List Char) : Option AMatch :=
  match attrSplit s with
  | none => none
  | some (a, s1) =>
    match s1 with
    | [] => none
    | q :: s2 =>
      if isQuoteC q && lookaheadOK s2 then
        match s2.dropWhile (fun c => !(isQuoteC c)) with
        | [] => none
        | q2 :: rest => some ⟨a, q, s2.takeWhile (fun c => !(isQuoteC c)), q2, rest⟩
      else none

/-- Rewrite of a single attribute value (index.ts lines 1060-1067): absolute
paths are kept, relative ones get the current path context prefixed. -/
def rewriteValue (ctx p : List Char) : List Char :=
  if jsStartsWith (str "/") p then p else ctx ++ p

/-- Replacement emitted for one match (index.ts line 1070): the attribute,
the opening quote, the rewritten value, the version parameter and the opening
quote again. -/
def renderSeg (ctx vp : List Char) (m : AMatch) : List Char :=
  m.attr ++ '=' :: m.q :: (rewriteValue ctx m.path ++ vp) ++ [m.q]

/-- Global left-to-right regex replacement, fuel-based: on a match the
replacement is emitted and scanning resumes after the match; otherwise one
character is copied. -/
def rewGo (ctx vp : List Char) : Nat → List Char → List Char
  | 0, s => s
  | _ + 1, [] => []
  | f + 1, c :: cs =>
    match tryMatch (c :: cs) with
    | some m => renderSeg ctx vp m ++ rewGo ctx vp f m.rest
    | none => c :: rewGo ctx vp f cs

/-- The src/href attribute-rewriting pass (index.ts lines 1060-1071). -/
def rewriteAttrs (ctx vp s : List Char) : List Char := rewGo ctx vp s.length s

/-- JavaScript `s.replace(pat, rep)` with a plain string pattern: replace the
first occurrence only. -/
def replaceFirst (pat rep : List Char) : List Char → List Char
  | [] => []
  | c :: cs =>
    if jsStartsWith pat (c :: cs) then rep ++ (c :: cs).drop pat.length
    else c :: replaceFirst pat rep cs

/-- The injected base element. -/
def baseTag (baseUrl : List Char) : List Char :=
  str "<base href=" ++ dquote :: baseUrl ++ [dquote, '>']

/-- Base-tag injection (index.ts lines 1051-1058): skipped when a base element
is already present; inserted after the opening head tag when one exists, else
prepended. -/
def injectBase (baseUrl doc : List Char) : List Char :=
  if !(jsIncludes (str "<base ") doc) then
    if jsIncludes (str "<head>") doc then
      replaceFirst (str "<head>") (str "<head>" ++ nl :: baseTag baseUrl) doc
    else baseTag baseUrl ++ nl :: doc
  else doc

/-- Current path context (index.ts lines 1035-1045): directory-equivalent of
the request path; the root maps to the empty context. -/
def currentPathContext (pathName : List Char) : List Char :=
  if (if !(jsEndsWith (str "/") pathName) && !(jsIncludesChar '.' pathName) then
        pathName ++ str "/"
      else if jsIncludesChar '.' pathName then upToLastSlash pathName
      else pathName) = str "/" then []
  else
    (if !(jsEndsWith (str "/") pathName) && !(jsIncludesChar '.' pathName) then
        pathName ++ str "/"
      else if jsIncludesChar '.' pathName then upToLastSlash pathName
      else pathName)

/-- The full HTML rewriting pass (index.ts lines 1033-1074): base-tag
injection using the original host, then attribute rewriting with the current
path context and the pinned-version query parameter. -/
def rewriteHtml (pathName proto originalHost vp doc : List Char) : List Char :=
  rewriteAttrs (currentPathContext pathName) vp
    (injectBase (proto ++ str "//" ++ originalHost ++ currentPathContext pathName) doc)

/-! The request pipeline (index.ts lines 808-1105). -/
/-- Media-file extension test (index.ts lines 986 and 1076): case-insensitive
match of the fixed audio/video extension list at the end of the path. -/
def isMediaFile (p : List Char) : Bool :=
  [str ".mp4", str ".webm", str ".ogg", str ".mov", str ".avi", str ".mkv",
   str ".mp3", str ".wav", str ".flac", str ".aac", str ".m4a"].any
    (fun e => jsEndsWith e (p.map Char.toLower))

/-- PHP-block response (index.ts lines 832-840). -/
def phpResp : Resp :=
  ⟨404,
   [(str "Content-Type", str "text/plain"),
    (str "Cache-Control", str "public, max-age=86400")],
   str "Not Found"⟩

/-- Top-level catch (index.ts lines 1097-1103): a thrown Error stringifies as
"Error: message" and the response body is "Error: " followed by it. -/
def errorResp (msg : List Char) : Resp :=
  ⟨500, [(str "Content-Type", str "text/plain")], str "Error: " ++ msg⟩

/-- Custom 404 response headers (index.ts lines 1012-1019). -/
def custom404Headers (ct cid contract domainType : List Char) :
    List (List Char × List Char) :=
  [(str "Content-Type", ct),
   (str "Cache-Control", str "public, max-age=3600"),
   (str "Powered-By", str "Orbiter"),
   (str "orb-cid", cid),
   (str "orb-contract", contract),
   (str "orb-domain-type", domainType)]

/-- Final content response headers (index.ts lines 1078-1090); Accept-Ranges
is appended for media files. -/
def contentHeaders (ct cid contract domainType : List Char) (isMedia : Bool) :
    List (List Char × List Char) :=
  [(str "Content-Type", ct),
   (str "Access-Control-Allow-Origin", str "*"),
   (str "Cache-Control", str "public, max-age=3600"),
   (str "Powered-By", str "Orbiter"),
   (str "orb-cid", cid),
   (str "orb-contract", contract),
   (str "orb-domain-type", domainType)] ++
  (if isMedia then [(str "Accept-Ranges", str "bytes")] else [])

/-- Request-scoped inputs of the handler. -/
structure Req where
  proto : List Char
  host : List Char
  xOriginalHost : Option (List Char)
  pathName : List Char
  versionCid : Option (List Char)
  referrerPath : Option (List Char)
  rangeHeader : Option (List Char)
deriving DecidableEq

/-- Site-registry lookups for the resolved site key (external collaborators:
KV namespaces and the gateway CID validation). -/
structure Site where
  siteKey : List Char
  domainType : List Char
  siteCid : Option (List Char)
  plan : Option (List Char)
  contract : Option (List Char)
  redirects : Option (List Redirect)
  versionValid : Bool
deriving DecidableEq

/-- Content-addressed backend oracle: `gw` is the gateway base URL for the CID
in use; `ok`, `status`, `ct` and `bodyTxt` describe the response at a URL;
`sizeHdr`, `rangeOk` and `fullCL` describe the HEAD probe and re-fetches of
the ranged path. -/
structure Backend where
  gw : List Char
  ok : List Char → Bool
  status : List Char → Nat
  ct : List Char → Option (List Char)
  bodyTxt : List Char → List Char
  sizeHdr : Option Nat
  rangeOk : Bool
  fullCL : Option (List Char)

/-- Kind of outcome of one request, used to state which branch produced the
response. -/
inductive RKind where
  | challenge
  | admin
  | php
  | api
  | redirect
  | err
  | range
  | custom404
  | content
deriving DecidableEq

/-- Handler outcome: the branch taken, the response, the content-backend URLs
fetched in order, and whether the redirect-rule list was read from KV. -/
structure HResult where
  kind : RKind
  resp : Resp
  fetches : List (List Char)
  redirectsQueried : Bool

/-- JavaScript `gatewayUrl.split('/index.html')[0]`: the part before the first
occurrence of the pattern, or the whole string when absent (index.ts
line 1026). -/
def splitFirstAt (pat : List Char) : List Char → List Char
  | [] => []
  | c :: cs =>
    if jsStartsWith pat (c :: cs) then []
    else c :: splitFirstAt pat cs

/-- X-Original-Host header preferred over the request host (index.ts
lines 895 and 1048). -/
def originalHost (rq : Req) : List Char :=
  match rq.xOriginalHost with
  | some h => h
  | none => rq.host

/-- The validated pinned-version CID: present only when the query parameter is
present and the gateway confirms the CID (index.ts line 946). -/
def usingVersionCid (rq : Req) (st : Site) : Option (List Char) :=
  match rq.versionCid with
  | some v => if st.versionValid then some v else none
  | none => none

/-- The CID served: the validated pinned version, else the registry CID
(index.ts line 947). -/
def cidOf (rq : Req) (st : Site) : Option (List Char) :=
  match usingVersionCid rq st with
  | some v => some v
  | none => st.siteCid

/-- Version query parameter appended by the rewriter (index.ts line 1069). -/
def versionParam (rq : Req) (st : Site) : List Char :=
  match usingVersionCid rq st with
  | some v => str "?orbiterVersionCid=" ++ v
  | none => []

/-- Content response served from URL `u` (index.ts lines 1030-1096): status
passthrough, HTML bodies run through the rewriter, content headers attached. -/
def contentRespAt (rq : Req) (st : Site) (bk : Backend)
    (cid vp cleanPath u : List Char) : Resp :=
  ⟨bk.status u,
   contentHeaders ((bk.ct u).getD (str "text/html")) cid (st.contract.getD [])
     st.domainType (isMediaFile cleanPath),
   if jsIncludes (str "text/html") ((bk.ct u).getD (str "text/html")) then
     rewriteHtml rq.pathName rq.proto (originalHost rq) vp (bk.bodyTxt u)
   else bk.bodyTxt u⟩

/-- Resolution outcome handling (index.ts lines 974-1096): on success serve
the last fetched URL; on failure consult the custom-404 rule and finally fall
back to the root object. -/
def afterResolve (rq : Req) (st : Site) (bk : Backend) (queried : Bool)
    (cid vp cleanPath : List Char) (rules : List Redirect) : HResult :=
  if (resolveSeq bk.ok bk.gw rq.pathName cleanPath).2 = true then
    ⟨RKind.content,
     contentRespAt rq st bk cid vp cleanPath
       (((resolveSeq bk.ok bk.gw rq.pathName cleanPath).1.getLast?).getD []),
     (resolveSeq bk.ok bk.gw rq.pathName cleanPath).1, queried⟩
  else
    match (if rules ≠ [] then rules.find? (fun r => r.source == str "404") else none) with
    | some c4 =>
      if bk.ok (bk.gw ++ str "/" ++
          ((if jsStartsWith (str "/") c4.destination then c4.destination.drop 1
            else c4.destination) ++ str ".html")) = true then
        ⟨RKind.custom404,
         ⟨404,
          custom404Headers
            ((bk.ct (bk.gw ++ str "/" ++
              ((if jsStartsWith (str "/") c4.destination then c4.destination.drop 1
                else c4.destination) ++ str ".html"))).getD (str "text/html"))
            cid (st.contract.getD []) st.domainType,
          bk.bodyTxt (bk.gw ++ str "/" ++
            ((if jsStartsWith (str "/") c4.destination then c4.destination.drop 1
              else c4.destination) ++ str ".html"))⟩,
         (resolveSeq bk.ok bk.gw rq.pathName cleanPath).1 ++
           [bk.gw ++ str "/" ++
             ((if jsStartsWith (str "/") c4.destination then c4.destination.drop 1
               else c4.destination) ++ str ".html")], queried⟩
      else
        ⟨RKind.content,
         contentRespAt rq st bk cid vp cleanPath (splitFirstAt (str "/index.html") bk.gw),
         (resolveSeq bk.ok bk.gw rq.pathName cleanPath).1 ++
           [bk.gw ++ str "/" ++
             ((if jsStartsWith (str "/") c4.destination then c4.destination.drop 1
               else c4.destination) ++ str ".html"),
            splitFirstAt (str "/index.html") bk.gw], queried⟩
    | none =>
      ⟨RKind.content,
       contentRespAt rq st bk cid vp cleanPath (splitFirstAt (str "/index.html") bk.gw),
       (resolveSeq bk.ok bk.gw rq.pathName cleanPath).1 ++
         [splitFirstAt (str "/index.html") bk.gw], queried⟩

/-- Static-site serving after redirect evaluation (index.ts lines 946-1096):
the CID check, the ranged-media dispatch and content resolution. -/
def staticPart (rq : Req) (st : Site) (bk : Backend) (queried : Bool)
    (rules : List Redirect) : HResult :=
  match cidOf rq st with
  | none =>
    ⟨RKind.err,
     errorResp (str "Error: Failed to fetch site data for siteKey: " ++ st.siteKey),
     [], queried⟩
  | some cid =>
    if (rq.pathName ≠ [] ∧ rq.pathName ≠ str "/") ∧
        jsIncludesChar '.' (cleanPathOf rq.pathName rq.referrerPath) = true ∧
        isMediaFile (cleanPathOf rq.pathName rq.referrerPath) = true ∧
        rq.rangeHeader.isSome = true then
      ⟨RKind.range,
       handleRangeRequest
         (bk.ok (bk.gw ++ str "/" ++ cleanPathOf rq.pathName rq.referrerPath))
         bk.sizeHdr bk.rangeOk
         (bk.ct (bk.gw ++ str "/" ++ cleanPathOf rq.pathName rq.referrerPath))
         bk.fullCL (rq.rangeHeader.getD []) cid (st.contract.getD []),
       [bk.gw ++ str "/" ++ cleanPathOf rq.pathName rq.referrerPath], queried⟩
    else
      afterResolve rq st bk queried cid (versionParam rq st)
        (cleanPathOf rq.pathName rq.referrerPath) rules

/-- The request handler (index.ts lines 808-1105): SSL-challenge, admin, PHP
block and API dispatch first (their responses are produced by external
collaborators and modelled as opaque), then plan-gated redirect evaluation,
then static serving.  `redirectsQueried` records whether the REDIRECTS KV
namespace was read. -/
def handle (rq : Req) (st : Site) (bk : Backend) : HResult :=
  if (jsStartsWith (str "/.well-known/") rq.pathName &&
      !(jsIncludes (str "farcaster.json") rq.pathName)) = true then
    ⟨RKind.challenge, ⟨0, [], []⟩, [], false⟩
  else if jsStartsWith (str "/admin/") rq.pathName = true then
    ⟨RKind.admin, ⟨0, [], []⟩, [], false⟩
  else if jsEndsWith (str ".php") (rq.pathName.map Char.toLower) = true then
    ⟨RKind.php, phpResp, [], false⟩
  else if jsStartsWith (str "/api/") rq.pathName = true ∧
      ¬ (st.plan = some (str "free")) then
    ⟨RKind.api, ⟨0, [], []⟩, [], false⟩
  else
    match matchRedirects rq.pathName
        (if st.plan = some (str "free") then [] else st.redirects.getD []) with
    | some r =>
      ⟨RKind.redirect,
       redirectResp rq.proto (originalHost rq) r (st.siteCid.getD [])
         (st.contract.getD []) st.domainType,
       [], !(decide (st.plan = some (str "free")))⟩
    | none =>
      staticPart rq st bk (!(decide (st.plan = some (str "free"))))
        (if st.plan = some (str "free") then [] else st.redirects.getD [])

/-- A backend whose fetches all succeed with status 200 and no headers. -/
def bkAllOk : Backend :=
  ⟨str "https://gw/ipfs/Q1", fun _ => true, fun _ => 200, fun _ => none,
   fun _ => [], none, true, none⟩

/-- Request for path /404 on a native domain, no referrer, no range. -/
def rqSlash404 : Req :=
  ⟨str "https:", str "demo.orbiter.website", none, str "/404", none, none, none⟩

/-- Paid-plan site carrying a single redirect rule whose source is "404". -/
def stWith404Rule : Site :=
  ⟨str "demo", str "native", some (str "Q1"), some (str "premium"),
   some (str "0xc"), some [⟨str "404", str "/missing", some 302, false⟩], false⟩

/-- Request for path /a. -/
def rqSlashA : Req :=
  ⟨str "https:", str "demo.orbiter.website", none, str "/a", none, none, none⟩

/-- Paid-plan site with a self-loop rule for /a followed by a second rule
sending /a to /b. -/
def stTwoRules : Site :=
  ⟨str "demo", str "native", some (str "Q1"), some (str "premium"),
   some (str "0xc"),
   some [⟨str "/a", str "/a", some 301, false⟩, ⟨str "/a", str "/b", some 301, false⟩],
   false⟩

/-- Request for a blocked .php path. -/
def rqPhp : Req :=
  ⟨str "https:", str "ghost.orbiter.website", none, str "/x.php", none, none, none⟩

/-- Site with no registry CID and no data at all. -/
def stNoCid : Site := ⟨str "ghost", str "digital-ocean", none, none, none, none, false⟩

/-- Request for a plain path with nothing special. -/
def rqPlain : Req :=
  ⟨str "https:", str "ghost.orbiter.website", none, str "/about", none, none, none⟩

/-- A backend whose fetches all fail with status 404. -/
def bkAllFail : Backend :=
  ⟨str "https://gw/ipfs/Q1", fun _ => false, fun _ => 404, fun _ => none,
   fun _ => [], none, false, none⟩

/-- The custom-404 rule whose destination already carries a .html extension. -/
def ruleHtml404 : Redirect := ⟨str "404", str "/404.html", some 301, false⟩

/-- Conditions on the current path context under which the attribute rewrite
is stable: empty, or slash-led but not protocol-relative, and quote-free. -/
def ctxOK (ctx : List Char) : Prop :=
  (ctx = [] ∨ (str "/" <+: ctx ∧ ¬ str "//" <+: ctx)) ∧
  ∀ c ∈ ctx, isQuoteC c = false

/-- No regex match starts at any position below n. -/
def noMatchBelow (n : Nat) (s : List Char) : Prop :=
  ∀ j, j < n → tryMatch (s.drop j) = none

/-- Concatenating the slash onto the root candidate gives the root URL suffix. -/
theorem slash_index_html : str "/" ++ str "index.html" = str "/index.html" := by decide

/-- A single-candidate traversal fetches the one URL and reports its status. -/
theorem fetchFirst_single (ok : List Char → Bool) (u : List Char) :
    fetchFirst ok [u] = ([u], ok u) := by
  by_cases h : ok u <;> simp [fetchFirst, h]

/-- A two-candidate traversal short-circuits on the first success. -/
theorem fetchFirst_pair (ok : List Char → Bool) (u v : List Char) :
    fetchFirst ok [u, v] =
      if ok u then ([u], true) else ([u, v], ok v) := by
  by_cases h : ok u
  · simp [fetchFirst, h]
  · by_cases h2 : ok v <;> simp [fetchFirst, h, h2]

/-- The literal fetch sequence of the worker equals the first-success traversal
of the candidate-key list. -/
theorem resolveSeq_eq_fetchFirst (ok : List Char → Bool)
    (gw pn cleanPath : List Char) :
    resolveSeq ok gw pn cleanPath =
      fetchFirst ok ((candidateKeys pn cleanPath).map (fun k => gw ++ str "/" ++ k)) := by
  unfold resolveSeq candidateKeys
  by_cases hr : pn ≠ [] ∧ pn ≠ str "/"
  · rw [if_pos hr, if_pos hr]
    by_cases hd : jsIncludesChar '.' cleanPath = true
    · simp only [hd, Bool.not_true, Bool.false_eq_true, if_false, List.map]
      rw [fetchFirst_single]
    · simp only [Bool.not_eq_true] at hd
      simp only [hd, Bool.not_false, if_true, List.map]
      rw [fetchFirst_pair]
      simp [List.append_assoc]
  · rw [if_neg hr, if_neg hr]
    simp only [List.map]
    rw [fetchFirst_single]
    simp [List.append_assoc, slash_index_html]

/-- C1: for every non-root request whose cleaned path is extensionless the two
candidates cleanPath/index.html then cleanPath.html are attempted in that
order; a cleaned path containing '.' yields exactly one candidate equal to the
cleaned path; the root path yields the single candidate index.html; and the
fetch sequence of the worker is exactly the first-success traversal of the
candidate list. -/
theorem candidate_resolution_spec (ok : List Char → Bool)
    (gw pathName cleanPath : List Char)
    (hroot : pathName ≠ [] ∧ pathName ≠ str "/") :
    (jsIncludesChar '.' cleanPath = false →
      candidateKeys pathName cleanPath =
        [cleanPath ++ str "/index.html", cleanPath ++ str ".html"]) ∧
    (jsIncludesChar '.' cleanPath = true →
      candidateKeys pathName cleanPath = [cleanPath]) ∧
    (∀ pn, (pn = [] ∨ pn = str "/") →
      candidateKeys pn cleanPath = [str "index.html"]) ∧
    (∀ pn, resolveSeq ok gw pn cleanPath =
      fetchFirst ok ((candidateKeys pn cleanPath).map (fun k => gw ++ str "/" ++ k))) := by
  refine ⟨?_, ?_, ?_, fun pn => resolveSeq_eq_fetchFirst ok gw pn cleanPath⟩
  · intro h
    simp [candidateKeys, hroot, h]
  · intro h
    simp [candidateKeys, hroot, h]
  · intro pn hpn
    rcases hpn with h | h <;> simp [candidateKeys, h]

/-- A path that ends with '/' is unchanged by truncation after its last '/'. -/
theorem upToLastSlash_of_endsSlash (p : List Char)
    (h : jsEndsWith (str "/") p = true) : upToLastSlash p = p := by
  unfold jsEndsWith str at h
  rw [List.isSuffixOf_iff_suffix] at h
  rcases h with ⟨t, ht⟩
  have hrev : p.reverse = '/' :: t.reverse := by
    rw [← ht]; simp
  unfold upToLastSlash
  rw [hrev]
  simp [List.dropWhile, ← hrev]

/-- The worker's referrer directory agrees with the specification's description. -/
theorem refererDir_eq_spec (p : List Char) : refererDir p = specReferrerDir p := by
  unfold refererDir specReferrerDir
  by_cases hd : jsIncludesChar '.' p = true <;>
    by_cases hs : jsEndsWith (str "/") p = true <;>
      simp [hd, hs, upToLastSlash_of_endsSlash p]

/-- A nonempty prefix of a list starting with '/' itself starts with '/'. -/
theorem startsSlash_of_pre {l p : List Char}
    (hp : l <+: p) (hl : l ≠ []) (hs : jsStartsWith (str "/") p = true) :
    jsStartsWith (str "/") l = true := by
  unfold jsStartsWith str at *
  rw [List.isPrefixOf_iff_prefix] at *
  rcases l with _ | ⟨c, l⟩
  · exact absurd rfl hl
  · rcases p with _ | ⟨d, p⟩
    · simp at hp
    · rw [List.cons_prefix_cons] at hp hs ⊢
      exact ⟨hs.1.trans hp.1.symm, by simp⟩

/-- Truncation after the last slash yields a prefix of the original path. -/
theorem upToLastSlash_pre (p : List Char) : upToLastSlash p <+: p := by
  unfold upToLastSlash
  have h : (p.reverse.dropWhile (fun c => !(c == '/'))) <:+ p.reverse :=
    List.dropWhile_suffix _
  have := h.reverse
  simpa using this

/-- C2: for a bare relative request path (no leading slash) with a referrer
whose path is not "/", the cleaned path is the referrer's directory (as
described by the spec: truncated after its last '/' when it contains a '.',
otherwise with a trailing slash ensured), stripped of its leading slash, and
prefixed onto the request path. -/
theorem referrer_relative_correction (pathName rp : List Char)
    (hrel : jsStartsWith (str "/") pathName = false)
    (hrp : rp ≠ str "/")
    (hslash : jsStartsWith (str "/") rp = true) :
    cleanPathOf pathName (some rp) = (specReferrerDir rp).drop 1 ++ pathName := by
  have hpn : pathName ≠ str "/" := by
    intro h; rw [h] at hrel; simp [jsStartsWith, str, List.isPrefixOf] at hrel
  have hrdslash : jsStartsWith (str "/") (refererDir rp) = true := by
    unfold refererDir
    by_cases hd : (jsIncludesChar '.' rp && !(jsEndsWith (str "/") rp)) = true
    · rw [if_pos hd]
      rcases Bool.and_eq_true_iff.mp hd with ⟨_, hns⟩
      have hsl : ('/' : Char) ∈ rp := by
        unfold jsStartsWith str at hslash
        rw [List.isPrefixOf_iff_prefix] at hslash
        rcases hslash with ⟨t, ht⟩
        rw [← ht]; simp
      have hne : upToLastSlash rp ≠ [] := by
        unfold upToLastSlash
        simp only [ne_eq, List.reverse_eq_nil_iff]
        rw [List.dropWhile_eq_nil_iff]
        intro hall
        have := hall '/' (by simpa using hsl)
        simp at this
      exact startsSlash_of_pre (upToLastSlash_pre rp) hne hslash
    · rw [if_neg hd]
      by_cases hs : jsEndsWith (str "/") rp = true
      · simp [hs, hslash]
      · simp only [hs, Bool.not_false, if_true]
        unfold jsStartsWith str at *
        rw [List.isPrefixOf_iff_prefix] at hslash ⊢
        exact hslash.trans (List.prefix_append _ _)
  unfold cleanPathOf
  simp only [hrel, Bool.not_false, if_true, hrp, hpn, ne_eq, not_false_iff, and_self,
    if_true, Bool.false_eq_true, if_false]
  rw [if_pos hrdslash, refererDir_eq_spec]

theorem natReprGo_zero (f : Nat) (acc : List Char) : natReprGo f 0 acc = acc := by
  cases f <;> simp [natReprGo]

theorem natReprGo_append (f : Nat) : ∀ n acc, natReprGo f n acc = natReprGo f n [] ++ acc := by
  induction f with
  | zero => intro n acc; simp [natReprGo]
  | succ f ih =>
    intro n acc
    by_cases h : n = 0
    · simp [natReprGo, h]
    · rw [natReprGo, natReprGo, if_neg h, if_neg h, ih (n / 10),
        ih (n / 10) [Nat.digitChar (n % 10)]]
      simp

theorem natReprGo_fuel : ∀ n f₁ f₂ acc, n ≤ f₁ → n ≤ f₂ →
    natReprGo f₁ n acc = natReprGo f₂ n acc := by
  intro n
  induction n using Nat.strong_induction_on with
  | _ n ih =>
    intro f₁ f₂ acc h₁ h₂
    by_cases h : n = 0
    · subst h
      rw [natReprGo_zero, natReprGo_zero]
    · obtain ⟨g₁, rfl⟩ : ∃ g, f₁ = g + 1 := ⟨f₁ - 1, by omega⟩
      obtain ⟨g₂, rfl⟩ : ∃ g, f₂ = g + 1 := ⟨f₂ - 1, by omega⟩
      rw [natReprGo, natReprGo, if_neg h, if_neg h]
      have hd : n / 10 < n := Nat.div_lt_self (by omega) (by norm_num)
      exact ih _ hd _ _ _ (by omega) (by omega)

/-- Unfolding of the rendering for positive arguments: the digits of `n / 10`
followed by the final digit. -/
theorem natRepr_pos (n : Nat) (hn : 0 < n) :
    natRepr n = (if n / 10 = 0 then [] else natRepr (n / 10)) ++ [Nat.digitChar (n % 10)] := by
  unfold natRepr
  rw [if_neg (by omega), natReprGo, if_neg (by omega), natReprGo_append]
  by_cases h : n / 10 = 0
  · rw [if_pos h, h, natReprGo_zero]
  · rw [if_neg h, if_neg h]
    have heq : natReprGo n (n / 10) [] = natReprGo (n / 10 + 1) (n / 10) [] :=
      natReprGo_fuel (n / 10) n (n / 10 + 1) []
        (by have := Nat.div_le_self n 10; omega) (by omega)
    rw [heq]

theorem digitChar_isDigit (m : Nat) (h : m < 10) : (Nat.digitChar m).isDigit = true := by
  interval_cases m <;> decide

theorem digitChar_val (m : Nat) (h : m < 10) : (Nat.digitChar m).toNat - 48 = m := by
  interval_cases m <;> decide

/-- Every character of the decimal rendering is a digit. -/
theorem natRepr_digits (n : Nat) : ∀ c ∈ natRepr n, c.isDigit = true := by
  induction n using Nat.strong_induction_on with
  | _ n ih =>
    by_cases hn : n = 0
    · subst hn; intro c hc; simp [natRepr] at hc; subst hc; decide
    · rw [natRepr_pos n (by omega)]
      intro c hc
      rcases List.mem_append.mp hc with h | h
      · by_cases h0 : n / 10 = 0
        · simp [h0] at h
        · rw [if_neg h0] at h
          exact ih (n / 10) (Nat.div_lt_self (by omega) (by norm_num)) c h
      · simp at h
        subst h
        exact digitChar_isDigit _ (Nat.mod_lt _ (by norm_num))

/-- The decimal rendering is never empty. -/
theorem natRepr_ne_nil (n : Nat) : natRepr n ≠ [] := by
  by_cases hn : n = 0
  · subst hn; simp [natRepr]
  · rw [natRepr_pos n (by omega)]
    simp

/-- Parsing inverts rendering. -/
theorem digitsToNat_natRepr (n : Nat) : digitsToNat (natRepr n) = n := by
  induction n using Nat.strong_induction_on with
  | _ n ih =>
    by_cases hn : n = 0
    · subst hn; decide
    · rw [natRepr_pos n (by omega)]
      by_cases h0 : n / 10 = 0
      · rw [if_pos h0]
        unfold digitsToNat
        simp [List.foldl]
        rw [digitChar_val _ (Nat.mod_lt _ (by norm_num))]
        omega
      · rw [if_neg h0]
        unfold digitsToNat
        rw [List.foldl_append]
        simp [List.foldl]
        have := ih (n / 10) (Nat.div_lt_self (by omega) (by norm_num))
        unfold digitsToNat at this
        rw [this, digitChar_val _ (Nat.mod_lt _ (by norm_num))]
        omega

/-- takeWhile / dropWhile through an all-satisfying block followed by a
failing character. -/
theorem takeWhile_block {p : Char → Bool} (xs : List Char)
    (hall : ∀ c ∈ xs, p c = true) (y : Char) (hy : p y = false) (r : List Char) :
    (xs ++ y :: r).takeWhile p = xs ∧ (xs ++ y :: r).dropWhile p = y :: r := by
  induction xs with
  | nil => simp [List.takeWhile, List.dropWhile, hy]
  | cons x xs ih =>
    have hx : p x = true := hall x (by simp)
    have ih' := ih (fun c hc => hall c (by simp [hc]))
    simp [List.takeWhile, List.dropWhile, hx, ih'.1, ih'.2]

/-- The regex attempt succeeds on a string that is exactly bytes= followed by
digits, a dash and a tail. -/
theorem rangeMatchAt_wellFormed (a : Nat) (tail : List Char) :
    rangeMatchAt (str "bytes=" ++ (natRepr a ++ '-' :: tail)) =
      some (natRepr a, tail.takeWhile Char.isDigit) := by
  have hpre : jsStartsWith (str "bytes=") (str "bytes=" ++ (natRepr a ++ '-' :: tail)) = true := by
    unfold jsStartsWith
    rw [List.isPrefixOf_iff_prefix]
    exact List.prefix_append _ _
  have hdrop : (str "bytes=" ++ (natRepr a ++ '-' :: tail)).drop 6 = natRepr a ++ '-' :: tail := by
    have h6 : (str "bytes=").length = 6 := by decide
    rw [← h6, List.drop_left]
  have hblock := takeWhile_block (natRepr a) (natRepr_digits a) '-' (by decide) tail
  unfold rangeMatchAt
  rw [if_pos hpre, hdrop, hblock.1, hblock.2, if_neg (natRepr_ne_nil a)]
  simp

/-- The scan matches immediately on a well-formed bytes=start-end header. -/
theorem rangeScan_wellFormed (a : Nat) (tail : List Char) :
    rangeScan (str "bytes=" ++ natRepr a ++ str "-" ++ tail) =
      some (natRepr a, tail.takeWhile Char.isDigit) := by
  have hshape : str "bytes=" ++ natRepr a ++ str "-" ++ tail =
      'b' :: (['y', 't', 'e', 's', '='] ++ (natRepr a ++ '-' :: tail)) := by
    have hb : str "bytes=" = ['b', 'y', 't', 'e', 's', '='] := by decide
    have hd : str "-" = ['-'] := by decide
    rw [hb, hd]
    simp
  have hfull : 'b' :: (['y', 't', 'e', 's', '='] ++ (natRepr a ++ '-' :: tail)) =
      str "bytes=" ++ (natRepr a ++ '-' :: tail) := by
    have hb : str "bytes=" = ['b', 'y', 't', 'e', 's', '='] := by decide
    rw [hb]
    simp
  rw [hshape]
  unfold rangeScan
  rw [hfull, rangeMatchAt_wellFormed]

/-- Parse of a fully explicit bytes=a-b header. -/
theorem parseRange_ab (S a b : Nat) :
    parseRangeHeader (str "bytes=" ++ natRepr a ++ str "-" ++ natRepr b) S =
      if a ≥ S ∨ b ≥ S ∨ a > b then none else some (a, b) := by
  unfold parseRangeHeader
  rw [rangeScan_wellFormed]
  have h2 : (natRepr b).takeWhile Char.isDigit = natRepr b :=
    List.takeWhile_eq_self_iff.mpr (natRepr_digits b)
  rw [h2]
  simp only [if_neg (natRepr_ne_nil b), digitsToNat_natRepr]

theorem lookupHdr_cons_ne {k v nm : List Char} (h : ¬ k = nm)
    (t : List (List Char × List Char)) :
    lookupHdr ((k, v) :: t) nm = lookupHdr t nm := by
  simp [lookupHdr, h]

theorem lookupHdr_cons_eq {nm v : List Char} (t : List (List Char × List Char)) :
    lookupHdr ((nm, v) :: t) nm = some v := by
  simp [lookupHdr]

/-- Parse of an open-ended bytes=0- header: the end defaults to size-1. -/
theorem parseRange_zeroDash (S : Nat) (hS : 1 ≤ S) :
    parseRangeHeader (str "bytes=0-") S = some (0, S - 1) := by
  have h0 : str "bytes=0-" = str "bytes=" ++ natRepr 0 ++ str "-" ++ ([] : List Char) := by
    decide
  rw [h0]
  unfold parseRangeHeader
  rw [rangeScan_wellFormed]
  simp only [List.takeWhile_nil]
  rw [if_neg]
  · simp [digitsToNat_natRepr]
  · simp only [digitsToNat_natRepr]
    simp
    omega

/-- Content-Range header of the 206 response. -/
theorem range206_CR (ct : List Char) (s e n : Nat) (cid contract : List Char) :
    lookupHdr (range206Headers ct s e n cid contract) (str "Content-Range") =
      some (str "bytes " ++ natRepr s ++ str "-" ++ natRepr e ++ str "/" ++ natRepr n) := by
  unfold range206Headers
  rw [lookupHdr_cons_ne (by decide), lookupHdr_cons_ne (by decide), lookupHdr_cons_eq]

/-- Content-Length header of the 206 response. -/
theorem range206_CL (ct : List Char) (s e n : Nat) (cid contract : List Char) :
    lookupHdr (range206Headers ct s e n cid contract) (str "Content-Length") =
      some (natRepr (e - s + 1)) := by
  unfold range206Headers
  rw [lookupHdr_cons_ne (by decide), lookupHdr_cons_eq]

/-- The successful ranged branch of handleRangeRequest returns the 206
response. -/
theorem handleRange_206 (S : Nat) (hS : 1 ≤ S) (s e : Nat)
    (ct fullCL : Option (List Char)) (cid contract : List Char)
    (rangeHeader : List Char)
    (hparse : parseRangeHeader rangeHeader S = some (s, e)) :
    handleRangeRequest true (some S) true ct fullCL rangeHeader cid contract =
      ⟨206, range206Headers (ct.getD (str "application/octet-stream")) s e S cid contract, []⟩ := by
  unfold handleRangeRequest
  simp only [Bool.not_true, Bool.false_eq_true, if_false, Option.getD_some]
  rw [if_neg (by omega), hparse]

/-- C3: for a media object of total size S (with a determinate size header and
a range-honouring backend): the header bytes=0- yields status 206 with
Content-Range bytes 0-(S-1)/S and Content-Length S; a header bytes=a-b whose
start or end exceeds S-1 or whose start exceeds its end yields status 416
(whatever the backend would do); and a satisfiable header bytes=a-b yields
206 with Content-Range bytes a-b/S and Content-Length b-a+1. -/
theorem range_request_spec (S a b : Nat) (hS : 1 ≤ S) (rangeOk : Bool)
    (ct fullCL : Option (List Char)) (cid contract : List Char) :
    ((handleRangeRequest true (some S) true ct fullCL (str "bytes=0-") cid contract).status = 206 ∧
     lookupHeader (handleRangeRequest true (some S) true ct fullCL (str "bytes=0-") cid contract)
         (str "Content-Range") =
       some (str "bytes 0-" ++ natRepr (S - 1) ++ str "/" ++ natRepr S) ∧
     lookupHeader (handleRangeRequest true (some S) true ct fullCL (str "bytes=0-") cid contract)
         (str "Content-Length") = some (natRepr S)) ∧
    ((a > S - 1 ∨ b > S - 1 ∨ a > b) →
      handleRangeRequest true (some S) rangeOk ct fullCL
          (str "bytes=" ++ natRepr a ++ str "-" ++ natRepr b) cid contract =
        ⟨416, [], str "Invalid range"⟩) ∧
    (a ≤ b → b ≤ S - 1 →
      (handleRangeRequest true (some S) true ct fullCL
          (str "bytes=" ++ natRepr a ++ str "-" ++ natRepr b) cid contract).status = 206 ∧
      lookupHeader (handleRangeRequest true (some S) true ct fullCL
          (str "bytes=" ++ natRepr a ++ str "-" ++ natRepr b) cid contract)
          (str "Content-Range") =
        some (str "bytes " ++ natRepr a ++ str "-" ++ natRepr b ++ str "/" ++ natRepr S) ∧
      lookupHeader (handleRangeRequest true (some S) true ct fullCL
          (str "bytes=" ++ natRepr a ++ str "-" ++ natRepr b) cid contract)
          (str "Content-Length") = some (natRepr (b - a + 1))) := by
  refine ⟨?_, ?_, ?_⟩
  · rw [handleRange_206 S hS 0 (S - 1) ct fullCL cid contract _ (parseRange_zeroDash S hS)]
    refine ⟨rfl, ?_, ?_⟩
    · unfold lookupHeader
      rw [range206_CR]
      have hpre : str "bytes " ++ natRepr 0 ++ str "-" = str "bytes 0-" := by decide
      rw [show str "bytes " ++ natRepr 0 ++ str "-" ++ natRepr (S - 1) ++ str "/" ++ natRepr S =
        (str "bytes " ++ natRepr 0 ++ str "-") ++ natRepr (S - 1) ++ str "/" ++ natRepr S from by
          simp [List.append_assoc], hpre]
    · unfold lookupHeader
      rw [range206_CL]
      have : S - 1 - 0 + 1 = S := by omega
      rw [this]
  · intro hbad
    unfold handleRangeRequest
    simp only [Bool.not_true, Bool.false_eq_true, if_false, Option.getD_some]
    rw [if_neg (by omega), parseRange_ab, if_pos (by omega)]
  · intro hab hbS
    rw [handleRange_206 S hS a b ct fullCL cid contract _
      (by rw [parseRange_ab, if_neg (by omega)])]
    refine ⟨rfl, ?_, ?_⟩
    · unfold lookupHeader
      rw [range206_CR]
    · unfold lookupHeader
      rw [range206_CL]

/-- C5 counterexample: a redirect rule whose source is the string "404" IS
evaluated during normal redirect matching and can itself cause a 3xx
response: a request for the path /404 is answered with that rule's 302
redirect. -/
theorem source404_redirects_counterexample :
    (handle rqSlash404 stWith404Rule bkAllOk).kind = RKind.redirect ∧
    (handle rqSlash404 stWith404Rule bkAllOk).resp.status = 302 ∧
    lookupHeader (handle rqSlash404 stWith404Rule bkAllOk).resp (str "Location") =
      some (str "https://demo.orbiter.website/missing") := by decide

/-- C5 (amended): a redirect rule whose source is "404" participates in normal
redirect matching like any other rule: whenever its normalized destination
differs from /404 it matches a request for the path /404 and is returned by
the matcher; on the content-fetch failure path it is additionally the rule
found by the custom-404 lookup. -/
theorem source404_participates (dest : List Char) (status : Option Nat) (force : Bool)
    (hne : destPathOf dest ≠ str "/404") :
    matchRedirects (str "/404") [⟨str "404", dest, status, force⟩] =
      some ⟨str "404", dest, status, force⟩ ∧
    [(⟨str "404", dest, status, force⟩ : Redirect)].find?
        (fun r => r.source == str "404") =
      some ⟨str "404", dest, status, force⟩ := by
  constructor
  · unfold matchRedirects
    rw [if_neg (fun h => hne h.symm),
      if_pos (Or.inl ((by decide : str "/404" = sourcePathOf (str "404"))))]
  · rfl

/-- Witness for the amended C5 statement at a concrete rule. -/
theorem source404_participates_witness :
    matchRedirects (str "/404") [⟨str "404", str "/missing", some 302, false⟩] =
      some ⟨str "404", str "/missing", some 302, false⟩ ∧
    [(⟨str "404", str "/missing", some 302, false⟩ : Redirect)].find?
        (fun r => r.source == str "404") =
      some ⟨str "404", str "/missing", some 302, false⟩ :=
  source404_participates (str "/missing") (some 302) false (by decide)

/-- C6 counterexample: a rule whose normalized source equals its normalized
destination (/a to /a) exists, yet the request at exactly that path IS
answered with a redirect, because a later rule with a different destination
matches. -/
theorem self_loop_counterexample :
    sourcePathOf (str "/a") = destPathOf (str "/a") ∧
    (handle rqSlashA stTwoRules bkAllOk).kind = RKind.redirect ∧
    (handle rqSlashA stTwoRules bkAllOk).resp.status = 301 ∧
    lookupHeader (handle rqSlashA stTwoRules bkAllOk).resp (str "Location") =
      some (str "https://demo.orbiter.website/b") := by decide

/-- C6 (amended): the self-redirect guard is per rule: a matched rule's
normalized destination never equals the request path, so no response ever
redirects a request to the page it is already on; in particular a single rule
(for example one whose normalized source equals its normalized destination)
never fires for a request at its own destination path, though a later rule
with a different destination may still redirect that request. -/
theorem redirect_self_loop_guard (pathName : List Char) :
    (∀ rules r, matchRedirects pathName rules = some r →
      destPathOf r.destination ≠ pathName) ∧
    (∀ r : Redirect, matchRedirects (destPathOf r.destination) [r] = none) := by
  constructor
  · intro rules
    induction rules with
    | nil => intro r h; simp [matchRedirects] at h
    | cons a rs ih =>
      intro r h
      unfold matchRedirects at h
      by_cases h1 : pathName = destPathOf a.destination
      · rw [if_pos h1] at h
        exact ih r h
      · rw [if_neg h1] at h
        by_cases h2 : pathName = sourcePathOf a.source ∨
            (a.force = true ∧ jsStartsWith (sourcePathOf a.source) pathName = true)
        · rw [if_pos h2] at h
          cases h
          exact fun hc => h1 hc.symm
        · rw [if_neg h2] at h
          exact ih r h
  · intro r
    unfold matchRedirects
    rw [if_pos rfl]
    rfl

/-- Witness for the amended C6 statement: the matched rule of the two-rule
counterexample configuration has destination path /b, not /a; and the single
self-loop rule alone never redirects /a. -/
theorem redirect_self_loop_guard_witness :
    destPathOf (str "/b") ≠ str "/a" ∧
    matchRedirects (destPathOf (str "/a")) [⟨str "/a", str "/a", some 301, false⟩] = none := by
  constructor
  · exact (redirect_self_loop_guard (str "/a")).1
      [⟨str "/a", str "/a", some 301, false⟩, ⟨str "/a", str "/b", some 301, false⟩]
      ⟨str "/a", str "/b", some 301, false⟩ (by decide)
  · exact (redirect_self_loop_guard (str "/a")).2 ⟨str "/a", str "/a", some 301, false⟩

/-- C7 counterexample: a 206 partial-content response is a content response
carrying a served object's body, yet it has no Access-Control-Allow-Origin
header. -/
theorem partial_content_no_cors_counterexample :
    (handleRangeRequest true (some 1000) true none none (str "bytes=100-199")
        (str "Q1") (str "0xc")).status = 206 ∧
    lookupHeader (handleRangeRequest true (some 1000) true none none
        (str "bytes=100-199") (str "Q1") (str "0xc"))
      (str "Access-Control-Allow-Origin") = none := by decide

/-- C7 (amended): every content response carries Content-Type,
Cache-Control: public, max-age=3600 and the observability headers orb-cid and
orb-contract; Access-Control-Allow-Origin: * is carried by the main content
response but not by custom-404 substitutions nor by the responses of the
ranged-media path. -/
theorem content_response_headers (ct cid contract domainType cl : List Char)
    (isMedia : Bool) (s e n : Nat) :
    (lookupHdr (contentHeaders ct cid contract domainType isMedia)
        (str "Content-Type") = some ct ∧
     lookupHdr (contentHeaders ct cid contract domainType isMedia)
        (str "Access-Control-Allow-Origin") = some (str "*") ∧
     lookupHdr (contentHeaders ct cid contract domainType isMedia)
        (str "Cache-Control") = some (str "public, max-age=3600") ∧
     lookupHdr (contentHeaders ct cid contract domainType isMedia)
        (str "orb-cid") = some cid ∧
     lookupHdr (contentHeaders ct cid contract domainType isMedia)
        (str "orb-contract") = some contract) ∧
    (lookupHdr (custom404Headers ct cid contract domainType)
        (str "Content-Type") = some ct ∧
     lookupHdr (custom404Headers ct cid contract domainType)
        (str "Cache-Control") = some (str "public, max-age=3600") ∧
     lookupHdr (custom404Headers ct cid contract domainType)
        (str "orb-cid") = some cid ∧
     lookupHdr (custom404Headers ct cid contract domainType)
        (str "orb-contract") = some contract ∧
     lookupHdr (custom404Headers ct cid contract domainType)
        (str "Access-Control-Allow-Origin") = none) ∧
    (lookupHdr (range206Headers ct s e n cid contract)
        (str "Content-Type") = some ct ∧
     lookupHdr (range206Headers ct s e n cid contract)
        (str "Cache-Control") = some (str "public, max-age=3600") ∧
     lookupHdr (range206Headers ct s e n cid contract)
        (str "orb-cid") = some cid ∧
     lookupHdr (range206Headers ct s e n cid contract)
        (str "orb-contract") = some contract ∧
     lookupHdr (range206Headers ct s e n cid contract)
        (str "Access-Control-Allow-Origin") = none) ∧
    (lookupHdr (rangeFullHeaders ct cl cid contract)
        (str "Content-Type") = some ct ∧
     lookupHdr (rangeFullHeaders ct cl cid contract)
        (str "Cache-Control") = some (str "public, max-age=3600") ∧
     lookupHdr (rangeFullHeaders ct cl cid contract)
        (str "orb-cid") = some cid ∧
     lookupHdr (rangeFullHeaders ct cl cid contract)
        (str "orb-contract") = some contract ∧
     lookupHdr (rangeFullHeaders ct cl cid contract)
        (str "Access-Control-Allow-Origin") = none) := by
  refine ⟨⟨?_, ?_, ?_, ?_, ?_⟩, ⟨?_, ?_, ?_, ?_, ?_⟩,
    ⟨?_, ?_, ?_, ?_, ?_⟩, ⟨?_, ?_, ?_, ?_, ?_⟩⟩ <;>
  · simp only [contentHeaders, custom404Headers, range206Headers, rangeFullHeaders,
      List.cons_append, List.nil_append]
    repeat rw [lookupHdr_cons_ne (by decide)]
    first
    | rw [lookupHdr_cons_eq]
    | rfl

/-- C8 counterexample: a request whose site key has no registered CID and no
pinned version is answered with the cached 404 of the PHP block, not with a
500: the claim does not hold for every such request. -/
theorem missing_cid_counterexample :
    stNoCid.siteCid = none ∧
    (handle rqPhp stNoCid bkAllOk).resp.status = 404 ∧
    ¬ (handle rqPhp stNoCid bkAllOk).resp.status = 500 := by decide

/-- C8 (amended): a request that reaches content resolution (not an SSL
challenge, admin or API route, not a blocked .php path, and matching no
redirect rule) for a site key with no registered CID and no validated pinned
version CID is answered 500 with a plain-text body containing the literal
site key, and no content fetch is attempted. -/
theorem missing_cid_500 (rq : Req) (st : Site) (bk : Backend)
    (h1 : (jsStartsWith (str "/.well-known/") rq.pathName &&
      !(jsIncludes (str "farcaster.json") rq.pathName)) = false)
    (h2 : jsStartsWith (str "/admin/") rq.pathName = false)
    (h3 : jsEndsWith (str ".php") (rq.pathName.map Char.toLower) = false)
    (h4 : ¬ (jsStartsWith (str "/api/") rq.pathName = true ∧
      ¬ (st.plan = some (str "free"))))
    (h5 : matchRedirects rq.pathName
      (if st.plan = some (str "free") then [] else st.redirects.getD []) = none)
    (h6 : cidOf rq st = none) :
    (handle rq st bk).resp.status = 500 ∧
    st.siteKey <:+: (handle rq st bk).resp.body ∧
    (handle rq st bk).fetches = [] := by
  unfold handle
  rw [if_neg (by simp [h1]), if_neg (by simp [h2]), if_neg (by simp [h3]),
    if_neg h4, h5]
  unfold staticPart
  rw [h6]
  refine ⟨rfl, ?_, rfl⟩
  exact ⟨str "Error: " ++ str "Error: Failed to fetch site data for siteKey: ", [],
    by simp [errorResp, List.append_assoc]⟩

/-- Witness for the amended C8 statement at a concrete request. -/
theorem missing_cid_500_witness :
    (handle rqPlain stNoCid bkAllOk).resp.status = 500 ∧
    stNoCid.siteKey <:+: (handle rqPlain stNoCid bkAllOk).resp.body ∧
    (handle rqPlain stNoCid bkAllOk).fetches = [] :=
  missing_cid_500 rqPlain stNoCid bkAllOk (by decide) (by decide) (by decide)
    (by decide) (by decide) (by decide)

/-- Bridge between the Boolean suffix test and the suffix relation. -/
theorem jsEndsWith_iff (p s : List Char) : jsEndsWith p s = true ↔ p <:+ s := by
  unfold jsEndsWith
  exact List.isSuffixOf_iff_suffix

theorem afterResolve_queried (rq : Req) (st : Site) (bk : Backend) (q : Bool)
    (cid vp cleanPath : List Char) (rules : List Redirect) :
    (afterResolve rq st bk q cid vp cleanPath rules).redirectsQueried = q := by
  unfold afterResolve
  repeat' split
  all_goals rfl

theorem staticPart_queried (rq : Req) (st : Site) (bk : Backend) (q : Bool)
    (rules : List Redirect) :
    (staticPart rq st bk q rules).redirectsQueried = q := by
  unfold staticPart
  split
  · rfl
  · split
    · rfl
    · exact afterResolve_queried rq st bk q _ _ _ rules

theorem afterResolve_nil_kind (rq : Req) (st : Site) (bk : Backend) (q : Bool)
    (cid vp cleanPath : List Char) :
    (afterResolve rq st bk q cid vp cleanPath []).kind = RKind.content := by
  unfold afterResolve
  split
  · rfl
  · simp

theorem staticPart_nil_kind (rq : Req) (st : Site) (bk : Backend) (q : Bool) :
    (staticPart rq st bk q []).kind = RKind.err ∨
    (staticPart rq st bk q []).kind = RKind.range ∨
    (staticPart rq st bk q []).kind = RKind.content := by
  unfold staticPart
  split
  · exact Or.inl rfl
  · split
    · exact Or.inr (Or.inl rfl)
    · exact Or.inr (Or.inr (afterResolve_nil_kind rq st bk q _ _ _))

/-- C9: when the resolved plan is the string "free", the redirect-rule list is
never read from KV, the response is never a tenant redirect, and no
custom-404 substitution ever occurs, regardless of the stored rules. -/
theorem free_plan_no_redirects (rq : Req) (st : Site) (bk : Backend)
    (hfree : st.plan = some (str "free")) :
    (handle rq st bk).redirectsQueried = false ∧
    (handle rq st bk).kind ≠ RKind.redirect ∧
    (handle rq st bk).kind ≠ RKind.custom404 := by
  have hdec : decide (st.plan = some (str "free")) = true := by
    simp [hfree]
  unfold handle
  split
  · exact ⟨rfl, by decide, by decide⟩
  · split
    · exact ⟨rfl, by decide, by decide⟩
    · split
      · exact ⟨rfl, by decide, by decide⟩
      · split
        · exact ⟨rfl, by decide, by decide⟩
        · have hnone : matchRedirects rq.pathName [] = none := by
            simp [matchRedirects]
          rw [hnone]
          refine ⟨?_, ?_, ?_⟩
          · rw [staticPart_queried, hdec]
            rfl
          · rcases staticPart_nil_kind rq st bk _ with h | h | h <;>
              · rw [h]; decide
          · rcases staticPart_nil_kind rq st bk _ with h | h | h <;>
              · rw [h]; decide

/-- Witness for C9 at a concrete request. -/
theorem free_plan_no_redirects_witness :
    (handle rqSlash404
        ⟨str "demo", str "native", some (str "Q1"), some (str "free"),
         some (str "0xc"), some [⟨str "404", str "/missing", some 302, false⟩],
         false⟩ bkAllOk).redirectsQueried = false ∧
    (handle rqSlash404
        ⟨str "demo", str "native", some (str "Q1"), some (str "free"),
         some (str "0xc"), some [⟨str "404", str "/missing", some 302, false⟩],
         false⟩ bkAllOk).kind ≠ RKind.redirect ∧
    (handle rqSlash404
        ⟨str "demo", str "native", some (str "Q1"), some (str "free"),
         some (str "0xc"), some [⟨str "404", str "/missing", some 302, false⟩],
         false⟩ bkAllOk).kind ≠ RKind.custom404 :=
  free_plan_no_redirects rqSlash404 _ bkAllOk (by decide)

/-- C10: when all candidate fetches fail and a source-"404" rule is found, the
custom-404 lookup fetches exactly the key obtained by stripping the
destination's leading slash and unconditionally appending .html, so a
destination already ending in .html is looked up with a doubled extension;
when that fetch also fails the request falls through to the last-resort
root-object fetch. -/
theorem custom404_key_construction (rq : Req) (st : Site) (bk : Backend)
    (q : Bool) (cid vp cleanPath : List Char) (rules : List Redirect)
    (c4 : Redirect)
    (hfail : (resolveSeq bk.ok bk.gw rq.pathName cleanPath).2 = false)
    (hfind : (if rules ≠ [] then rules.find? (fun r => r.source == str "404")
      else none) = some c4) :
    ((afterResolve rq st bk q cid vp cleanPath rules).fetches =
      (resolveSeq bk.ok bk.gw rq.pathName cleanPath).1 ++
        (if bk.ok (bk.gw ++ str "/" ++
            ((if jsStartsWith (str "/") c4.destination then c4.destination.drop 1
              else c4.destination) ++ str ".html")) = true then
          [bk.gw ++ str "/" ++
            ((if jsStartsWith (str "/") c4.destination then c4.destination.drop 1
              else c4.destination) ++ str ".html")]
        else
          [bk.gw ++ str "/" ++
            ((if jsStartsWith (str "/") c4.destination then c4.destination.drop 1
              else c4.destination) ++ str ".html"),
           splitFirstAt (str "/index.html") bk.gw])) ∧
    (jsEndsWith (str ".html") c4.destination = true →
      jsEndsWith (str ".html.html")
        ((if jsStartsWith (str "/") c4.destination then c4.destination.drop 1
          else c4.destination) ++ str ".html") = true) ∧
    (bk.ok (bk.gw ++ str "/" ++
        ((if jsStartsWith (str "/") c4.destination then c4.destination.drop 1
          else c4.destination) ++ str ".html")) = false →
      (afterResolve rq st bk q cid vp cleanPath rules).resp =
        contentRespAt rq st bk cid vp cleanPath
          (splitFirstAt (str "/index.html") bk.gw)) := by
  have hred : afterResolve rq st bk q cid vp cleanPath rules =
      if bk.ok (bk.gw ++ str "/" ++
          ((if jsStartsWith (str "/") c4.destination then c4.destination.drop 1
            else c4.destination) ++ str ".html")) = true then
        ⟨RKind.custom404,
         ⟨404,
          custom404Headers
            ((bk.ct (bk.gw ++ str "/" ++
              ((if jsStartsWith (str "/") c4.destination then c4.destination.drop 1
                else c4.destination) ++ str ".html"))).getD (str "text/html"))
            cid (st.contract.getD []) st.domainType,
          bk.bodyTxt (bk.gw ++ str "/" ++
            ((if jsStartsWith (str "/") c4.destination then c4.destination.drop 1
              else c4.destination) ++ str ".html"))⟩,
         (resolveSeq bk.ok bk.gw rq.pathName cleanPath).1 ++
           [bk.gw ++ str "/" ++
             ((if jsStartsWith (str "/") c4.destination then c4.destination.drop 1
               else c4.destination) ++ str ".html")], q⟩
      else
        ⟨RKind.content,
         contentRespAt rq st bk cid vp cleanPath (splitFirstAt (str "/index.html") bk.gw),
         (resolveSeq bk.ok bk.gw rq.pathName cleanPath).1 ++
           [bk.gw ++ str "/" ++
             ((if jsStartsWith (str "/") c4.destination then c4.destination.drop 1
               else c4.destination) ++ str ".html"),
            splitFirstAt (str "/index.html") bk.gw], q⟩ := by
    unfold afterResolve
    rw [if_neg (by simp [hfail]), hfind]
  refine ⟨?_, ?_, ?_⟩
  · rw [hred]
    by_cases hok : bk.ok (bk.gw ++ str "/" ++
        ((if jsStartsWith (str "/") c4.destination then c4.destination.drop 1
          else c4.destination) ++ str ".html")) = true
    · rw [if_pos hok, if_pos hok]
    · rw [if_neg hok, if_neg hok]
  · intro hsuf
    rw [jsEndsWith_iff] at hsuf ⊢
    rcases hsuf with ⟨t, ht⟩
    have hcat : str ".html" ++ str ".html" = str ".html.html" := by decide
    by_cases hsl : jsStartsWith (str "/") c4.destination = true
    · rw [if_pos hsl]
      have hsl' : str "/" <+: c4.destination := by
        unfold jsStartsWith at hsl
        exact List.isPrefixOf_iff_prefix.mp hsl
      rcases t with _ | ⟨c, t2⟩
      · exfalso
        rw [← ht] at hsl'
        simp at hsl'
        exact absurd hsl' (by decide)
      · rw [← ht]
        simp only [List.cons_append, List.drop_succ_cons, List.drop_zero]
        refine ⟨t2, ?_⟩
        rw [← hcat, ← List.append_assoc]
    · rw [if_neg hsl, ← ht]
      refine ⟨t, ?_⟩
      rw [← hcat, ← List.append_assoc]
  · intro hnok
    rw [hred, if_neg (by intro h; rw [h] at hnok; exact absurd hnok (by decide))]

/-- Witness for C1 at a concrete request for /about. -/
theorem candidate_resolution_spec_witness :
    (jsIncludesChar '.' (str "about") = false →
      candidateKeys (str "/about") (str "about") =
        [str "about" ++ str "/index.html", str "about" ++ str ".html"]) ∧
    (jsIncludesChar '.' (str "about") = true →
      candidateKeys (str "/about") (str "about") = [str "about"]) ∧
    (∀ pn, (pn = [] ∨ pn = str "/") →
      candidateKeys pn (str "about") = [str "index.html"]) ∧
    (∀ pn, resolveSeq (fun _ => false) (str "gw") pn (str "about") =
      fetchFirst (fun _ => false)
        ((candidateKeys pn (str "about")).map (fun k => str "gw" ++ str "/" ++ k))) :=
  candidate_resolution_spec (fun _ => false) (str "gw") (str "/about") (str "about")
    (by decide)

/-- Witness for C2 at a concrete bare-relative request with a referrer. -/
theorem referrer_relative_correction_witness :
    cleanPathOf (str "logo.png") (some (str "/docs/page.html")) =
      (specReferrerDir (str "/docs/page.html")).drop 1 ++ str "logo.png" :=
  referrer_relative_correction (str "logo.png") (str "/docs/page.html")
    (by decide) (by decide) (by decide)

/-- Witness for C3 at a concrete 1000-byte object. -/
theorem range_request_spec_witness :
    ((handleRangeRequest true (some 1000) true none none (str "bytes=0-")
        (str "Q1") (str "0xc")).status = 206 ∧
     lookupHeader (handleRangeRequest true (some 1000) true none none (str "bytes=0-")
         (str "Q1") (str "0xc")) (str "Content-Range") =
       some (str "bytes 0-" ++ natRepr (1000 - 1) ++ str "/" ++ natRepr 1000) ∧
     lookupHeader (handleRangeRequest true (some 1000) true none none (str "bytes=0-")
         (str "Q1") (str "0xc")) (str "Content-Length") = some (natRepr 1000)) ∧
    ((100 > 1000 - 1 ∨ 199 > 1000 - 1 ∨ 100 > 199) →
      handleRangeRequest true (some 1000) true none none
          (str "bytes=" ++ natRepr 100 ++ str "-" ++ natRepr 199) (str "Q1") (str "0xc") =
        ⟨416, [], str "Invalid range"⟩) ∧
    (100 ≤ 199 → 199 ≤ 1000 - 1 →
      (handleRangeRequest true (some 1000) true none none
          (str "bytes=" ++ natRepr 100 ++ str "-" ++ natRepr 199) (str "Q1") (str "0xc")).status = 206 ∧
      lookupHeader (handleRangeRequest true (some 1000) true none none
          (str "bytes=" ++ natRepr 100 ++ str "-" ++ natRepr 199) (str "Q1") (str "0xc"))
          (str "Content-Range") =
        some (str "bytes " ++ natRepr 100 ++ str "-" ++ natRepr 199 ++ str "/" ++ natRepr 1000) ∧
      lookupHeader (handleRangeRequest true (some 1000) true none none
          (str "bytes=" ++ natRepr 100 ++ str "-" ++ natRepr 199) (str "Q1") (str "0xc"))
          (str "Content-Length") = some (natRepr (199 - 100 + 1))) :=
  range_request_spec 1000 100 199 (by decide) true none none (str "Q1") (str "0xc")

/-- Witness for C10 at a concrete failing configuration. -/
theorem custom404_key_construction_witness :
    ((afterResolve rqPlain stNoCid bkAllFail true (str "Q1") [] (str "about")
        [ruleHtml404]).fetches =
      (resolveSeq bkAllFail.ok bkAllFail.gw rqPlain.pathName (str "about")).1 ++
        (if bkAllFail.ok (bkAllFail.gw ++ str "/" ++
            ((if jsStartsWith (str "/") ruleHtml404.destination then
                ruleHtml404.destination.drop 1
              else ruleHtml404.destination) ++ str ".html")) = true then
          [bkAllFail.gw ++ str "/" ++
            ((if jsStartsWith (str "/") ruleHtml404.destination then
                ruleHtml404.destination.drop 1
              else ruleHtml404.destination) ++ str ".html")]
        else
          [bkAllFail.gw ++ str "/" ++
            ((if jsStartsWith (str "/") ruleHtml404.destination then
                ruleHtml404.destination.drop 1
              else ruleHtml404.destination) ++ str ".html"),
           splitFirstAt (str "/index.html") bkAllFail.gw])) ∧
    (jsEndsWith (str ".html") ruleHtml404.destination = true →
      jsEndsWith (str ".html.html")
        ((if jsStartsWith (str "/") ruleHtml404.destination then
            ruleHtml404.destination.drop 1
          else ruleHtml404.destination) ++ str ".html") = true) ∧
    (bkAllFail.ok (bkAllFail.gw ++ str "/" ++
        ((if jsStartsWith (str "/") ruleHtml404.destination then
            ruleHtml404.destination.drop 1
          else ruleHtml404.destination) ++ str ".html")) = false →
      (afterResolve rqPlain stNoCid bkAllFail true (str "Q1") [] (str "about")
          [ruleHtml404]).resp =
        contentRespAt rqPlain stNoCid bkAllFail (str "Q1") [] (str "about")
          (splitFirstAt (str "/index.html") bkAllFail.gw)) :=
  custom404_key_construction rqPlain stNoCid bkAllFail true (str "Q1") [] (str "about")
    [ruleHtml404] ruleHtml404 (by decide) (by decide)

/-- C4 counterexample: with a validated pinned-version CID in use, applying
the HTML link-rewriting pass to its own output is not byte-identical: the
second application appends the version query parameter a second time to the
rewritten src attribute. -/
theorem rewrite_not_idempotent :
    ¬ (rewriteHtml (str "/") (str "https:") (str "h.com")
         (str "?orbiterVersionCid=" ++ str "Q1")
         (rewriteHtml (str "/") (str "https:") (str "h.com")
           (str "?orbiterVersionCid=" ++ str "Q1")
           (str "<head></head><img src=" ++ dquote :: str "logo.png" ++ [dquote, '>'])) =
       rewriteHtml (str "/") (str "https:") (str "h.com")
         (str "?orbiterVersionCid=" ++ str "Q1")
         (str "<head></head><img src=" ++ dquote :: str "logo.png" ++ [dquote, '>'])) := by
  decide

/-- Bridge between the Boolean prefix test and the prefix relation. -/
theorem jsStartsWith_iff (p s : List Char) : jsStartsWith p s = true ↔ p <+: s := by
  unfold jsStartsWith
  exact List.isPrefixOf_iff_prefix

theorem jsStartsWith_append (p x : List Char) : jsStartsWith p (p ++ x) = true :=
  (jsStartsWith_iff p (p ++ x)).mpr (List.prefix_append p x)

theorem attrSplit_some {s : List Char} {a s1 : List Char}
    (h : attrSplit s = some (a, s1)) :
    s = a ++ '=' :: s1 ∧ (a = str "src" ∨ a = str "href") := by
  unfold attrSplit at h
  by_cases h1 : jsStartsWith (str "src=") s = true
  · rw [if_pos h1] at h
    injection h with h
    injection h with ha hs1
    rcases (jsStartsWith_iff _ _).mp h1 with ⟨t, ht⟩
    subst ha
    constructor
    · rw [← hs1, ← ht, List.drop_left' (show (str "src=").length = 4 from by decide)]
      rfl
    · exact Or.inl rfl
  · rw [if_neg h1] at h
    by_cases h2 : jsStartsWith (str "href=") s = true
    · rw [if_pos h2] at h
      injection h with h
      injection h with ha hs1
      rcases (jsStartsWith_iff _ _).mp h2 with ⟨t, ht⟩
      subst ha
      constructor
      · rw [← hs1, ← ht, List.drop_left' (show (str "href=").length = 5 from by decide)]
        rfl
      · exact Or.inr rfl
    · rw [if_neg h2] at h
      exact absurd h (by simp)

theorem not_isQuoteC_eq {c : Char} (h : isQuoteC c = true) :
    ¬ c = 's' ∧ ¬ c = 'h' ∧ ¬ c = 'r' := by
  unfold isQuoteC at h
  rcases Bool.or_eq_true_iff.mp h with h | h
  · rw [show c = dquote from by exact beq_iff_eq.mp h]
    refine ⟨by decide, by decide, by decide⟩
  · rw [show c = squote from by exact beq_iff_eq.mp h]
    refine ⟨by decide, by decide, by decide⟩

/-- Inversion of a successful regex attempt. -/
theorem tryMatch_some {s : List Char} {m : AMatch} (h : tryMatch s = some m) :
    s = m.attr ++ '=' :: m.q :: (m.path ++ m.q2 :: m.rest) ∧
    (m.attr = str "src" ∨ m.attr = str "href") ∧
    isQuoteC m.q = true ∧ isQuoteC m.q2 = true ∧
    (∀ c ∈ m.path, isQuoteC c = false) ∧
    lookaheadOK (m.path ++ m.q2 :: m.rest) = true := by
  unfold tryMatch at h
  cases hsp : attrSplit s with
  | none => rw [hsp] at h; exact absurd h (by simp)
  | some p =>
    rw [hsp] at h
    obtain ⟨a, s1⟩ := p
    obtain ⟨hs, ha⟩ := attrSplit_some hsp
    cases hs1 : s1 with
    | nil => rw [hs1] at h; exact absurd h (by simp)
    | cons q s2 =>
      rw [hs1] at h
      replace h : (if (isQuoteC q && lookaheadOK s2) = true then
          (match s2.dropWhile (fun c => !(isQuoteC c)) with
            | [] => none
            | q2 :: rest =>
              some (⟨a, q, s2.takeWhile (fun c => !(isQuoteC c)), q2, rest⟩ : AMatch))
        else none) = some m := h
      by_cases hg : (isQuoteC q && lookaheadOK s2) = true
      · rw [if_pos hg] at h
        cases hdw : s2.dropWhile (fun c => !(isQuoteC c)) with
        | nil => rw [hdw] at h; exact absurd h (by simp)
        | cons q2 rest =>
          rw [hdw] at h
          injection h with h
          subst h
          simp only
          obtain ⟨hq, hla⟩ := Bool.and_eq_true_iff.mp hg
          have hs2 : s2 = s2.takeWhile (fun c => !(isQuoteC c)) ++ q2 :: rest := by
            rw [← hdw, List.takeWhile_append_dropWhile]
          have hq2 : isQuoteC q2 = true := by
            have := List.head?_dropWhile_not (fun c => !(isQuoteC c)) s2
            rw [hdw] at this
            simp at this
            exact this
          refine ⟨?_, ha, hq, hq2, ?_, ?_⟩
          · rw [hs, hs1, ← hs2]
          · intro c hc
            have := List.mem_takeWhile_imp hc
            simpa using this
          · rw [← hs2]; exact hla
      · rw [if_neg hg] at h
        exact absurd h (by simp)

/-- A successful match consumes at least six characters. -/
theorem tryMatch_length {s : List Char} {m : AMatch} (h : tryMatch s = some m) :
    m.rest.length + 6 ≤ s.length := by
  obtain ⟨hs, ha, -⟩ := tryMatch_some h
  have hal : 3 ≤ m.attr.length := by
    rcases ha with h | h <;> rw [h] <;> decide
  rw [hs]
  simp [List.length_append]
  omega

theorem rewGo_fuel (ctx vp : List Char) :
    ∀ n f₁ f₂ s, s.length ≤ n → s.length ≤ f₁ → s.length ≤ f₂ →
      rewGo ctx vp f₁ s = rewGo ctx vp f₂ s := by
  intro n
  induction n with
  | zero =>
    intro f₁ f₂ s hn h₁ h₂
    have : s = [] := List.eq_nil_of_length_eq_zero (by omega)
    subst this
    cases f₁ <;> cases f₂ <;> rfl
  | succ n ih =>
    intro f₁ f₂ s hn h₁ h₂
    cases s with
    | nil => cases f₁ <;> cases f₂ <;> rfl
    | cons c cs =>
      obtain ⟨g₁, rfl⟩ : ∃ g, f₁ = g + 1 := ⟨f₁ - 1, by simp at h₁; omega⟩
      obtain ⟨g₂, rfl⟩ : ∃ g, f₂ = g + 1 := ⟨f₂ - 1, by simp at h₂; omega⟩
      rw [rewGo, rewGo]
      cases hm : tryMatch (c :: cs) with
      | none =>
        simp only
        rw [ih g₁ g₂ cs (by simp at hn; omega) (by simp at h₁; omega)
          (by simp at h₂; omega)]
      | some m =>
        simp only
        have hlen := tryMatch_length hm
        simp at hlen hn h₁ h₂
        rw [ih g₁ g₂ m.rest (by omega) (by omega) (by omega)]

theorem rewriteAttrs_cons_none (ctx vp : List Char) {c : Char} {cs : List Char}
    (h : tryMatch (c :: cs) = none) :
    rewriteAttrs ctx vp (c :: cs) = c :: rewriteAttrs ctx vp cs := by
  unfold rewriteAttrs
  rw [show (c :: cs).length = cs.length + 1 from by simp, rewGo, h]

theorem rewriteAttrs_cons_some (ctx vp : List Char) {c : Char} {cs : List Char}
    {m : AMatch} (h : tryMatch (c :: cs) = some m) :
    rewriteAttrs ctx vp (c :: cs) = renderSeg ctx vp m ++ rewriteAttrs ctx vp m.rest := by
  unfold rewriteAttrs
  rw [show (c :: cs).length = cs.length + 1 from by simp, rewGo, h]
  simp only
  have hlen := tryMatch_length h
  simp at hlen
  rw [rewGo_fuel ctx vp (cs.length) cs.length m.rest.length m.rest (by omega) (by omega)
    (by omega)]

/-- Splitting a prefix across an append. -/
theorem prefix_append_cases {p x y : List Char} (h : p <+: x ++ y) :
    p <+: x ∨ ∃ p2, p = x ++ p2 ∧ p2 <+: y := by
  induction x generalizing p with
  | nil => exact Or.inr ⟨p, by simp, by simpa using h⟩
  | cons a x ih =>
    cases p with
    | nil => exact Or.inl (by simp)
    | cons b p =>
      rw [List.cons_append, List.cons_prefix_cons] at h
      obtain ⟨rfl, h⟩ := h
      rcases ih h with h2 | ⟨p2, rfl, hp2⟩
      · exact Or.inl (List.cons_prefix_cons.mpr ⟨rfl, h2⟩)
      · exact Or.inr ⟨p2, by simp, hp2⟩

theorem forb_no_quotes : ∀ f ∈ forb, ∀ c ∈ f, isQuoteC c = false := by decide

/-- The lookahead over a value followed by a quote depends only on the value. -/
theorem lookaheadOK_append_quote {v t : List Char} {q : Char}
    (hq : isQuoteC q = true) :
    lookaheadOK (v ++ q :: t) = true ↔ ∀ f ∈ forb, ¬ f <+: v := by
  unfold lookaheadOK
  rw [List.all_eq_true]
  constructor
  · intro h f hf hpv
    have h2 := h f hf
    rw [Bool.not_eq_true'] at h2
    have : jsStartsWith f (v ++ q :: t) = true :=
      (jsStartsWith_iff _ _).mpr (hpv.trans (List.prefix_append v (q :: t)))
    rw [this] at h2
    exact absurd h2 (by simp)
  · intro h f hf
    rw [Bool.not_eq_true']
    cases hjs : jsStartsWith f (v ++ q :: t) with
    | false => rfl
    | true =>
      exfalso
      have hp := (jsStartsWith_iff _ _).mp hjs
      rcases prefix_append_cases hp with hc | ⟨p2, rfl, hp2⟩
      · exact h f hf hc
      · cases p2 with
        | nil => exact h (v ++ []) hf (by simp)
        | cons b p2 =>
          rw [List.cons_prefix_cons] at hp2
          have hbq : b = q := hp2.1
          have hbf : isQuoteC b = false :=
            forb_no_quotes (v ++ b :: p2) hf b (by simp)
          rw [hbq] at hbf
          rw [hbf] at hq
          exact absurd hq (by simp)

theorem tryMatch_cons_quote {s a : List Char} {q : Char} {s2 : List Char}
    (hsp : attrSplit s = some (a, q :: s2)) :
    tryMatch s = (if (isQuoteC q && lookaheadOK s2) = true then
        match s2.dropWhile (fun c => !(isQuoteC c)) with
        | [] => none
        | q2 :: rest =>
          some (⟨a, q, s2.takeWhile (fun c => !(isQuoteC c)), q2, rest⟩ : AMatch)
      else none) := by
  unfold tryMatch
  rw [hsp]

theorem startsWith_src_of_href (X : List Char) :
    jsStartsWith (str "src=") (str "href=" ++ X) = false := by
  cases hjs : jsStartsWith (str "src=") (str "href=" ++ X) with
  | false => rfl
  | true =>
    exfalso
    have hp := (jsStartsWith_iff _ _).mp hjs
    rw [show str "src=" = 's' :: str "rc=" from rfl,
      show str "href=" ++ X = 'h' :: (str "ref=" ++ X) from rfl,
      List.cons_prefix_cons] at hp
    exact absurd hp.1 (by decide)

/-- The regex matches a rendered attribute segment whose value is quote-free
and lookahead-safe, capturing exactly that value. -/
theorem tryMatch_seg {a : List Char} (ha : a = str "src" ∨ a = str "href")
    {q : Char} (hq : isQuoteC q = true) {v t : List Char}
    (hv : ∀ c ∈ v, isQuoteC c = false)
    (hla : ∀ f ∈ forb, ¬ f <+: v) :
    tryMatch (a ++ '=' :: q :: (v ++ q :: t)) = some ⟨a, q, v, q, t⟩ := by
  have hblock := takeWhile_block (p := fun c => !(isQuoteC c)) v
    (by intro c hc; simp [hv c hc]) q (by simp [hq]) t
  have hla' : lookaheadOK (v ++ q :: t) = true :=
    (lookaheadOK_append_quote hq).mpr hla
  have hcond : (isQuoteC q && lookaheadOK (v ++ q :: t)) = true := by
    rw [hq, hla']; rfl
  rcases ha with rfl | rfl
  · have hsplit : attrSplit (str "src" ++ '=' :: q :: (v ++ q :: t)) =
        some (str "src", q :: (v ++ q :: t)) := by
      unfold attrSplit
      rw [show str "src" ++ '=' :: q :: (v ++ q :: t) =
        str "src=" ++ (q :: (v ++ q :: t)) from rfl]
      rw [if_pos (jsStartsWith_append _ _),
        List.drop_left' (show (str "src=").length = 4 from by decide)]
    rw [tryMatch_cons_quote hsplit, if_pos hcond, hblock.2]
    simp [hblock.1]
  · have hsplit : attrSplit (str "href" ++ '=' :: q :: (v ++ q :: t)) =
        some (str "href", q :: (v ++ q :: t)) := by
      unfold attrSplit
      rw [show str "href" ++ '=' :: q :: (v ++ q :: t) =
        str "href=" ++ (q :: (v ++ q :: t)) from rfl]
      rw [if_neg (by rw [startsWith_src_of_href]; simp),
        if_pos (jsStartsWith_append _ _),
        List.drop_left' (show (str "href=").length = 5 from by decide)]
    rw [tryMatch_cons_quote hsplit, if_pos hcond, hblock.2]
    simp [hblock.1]

theorem rewriteValue_quote_free {ctx p : List Char} (hctx : ctxOK ctx)
    (hp : ∀ c ∈ p, isQuoteC c = false) :
    ∀ c ∈ rewriteValue ctx p, isQuoteC c = false := by
  unfold rewriteValue
  split
  · exact hp
  · intro c hc
    rcases List.mem_append.mp hc with h | h
    · exact hctx.2 c h
    · exact hp c h

theorem rewriteValue_safe {ctx p : List Char} (hctx : ctxOK ctx)
    (hp : ∀ f ∈ forb, ¬ f <+: p) :
    ∀ f ∈ forb, ¬ f <+: rewriteValue ctx p := by
  unfold rewriteValue
  by_cases hsl : jsStartsWith (str "/") p = true
  · rw [if_pos hsl]; exact hp
  · rw [if_neg hsl]
    rcases hctx.1 with rfl | ⟨hpre, hnpre⟩
    · simpa using hp
    · obtain ⟨ctx2, rfl⟩ : ∃ ctx2, ctx = '/' :: ctx2 := by
        rcases hpre with ⟨t, ht⟩
        exact ⟨t, ht.symm⟩
      intro f hf hc
      simp only [forb, List.mem_cons, List.not_mem_nil, or_false] at hf
      rcases hf with rfl | rfl | rfl | rfl | rfl
      · rw [show str "http" = 'h' :: str "ttp" from rfl,
          show ('/' :: ctx2) ++ p = '/' :: (ctx2 ++ p) from rfl,
          List.cons_prefix_cons] at hc
        exact absurd hc.1 (by decide)
      · rw [show str "//" = '/' :: ['/'] from rfl,
          show ('/' :: ctx2) ++ p = '/' :: (ctx2 ++ p) from rfl,
          List.cons_prefix_cons] at hc
        rcases prefix_append_cases hc.2 with h2 | ⟨p2, hp2, hp2'⟩
        · exact hnpre (by
            rw [show str "//" = '/' :: ['/'] from rfl, List.cons_prefix_cons]
            exact ⟨rfl, h2⟩)
        · cases ctx2 with
          | nil =>
            simp at hp2
            rw [← hp2] at hp2'
            exact hsl ((jsStartsWith_iff (str "/") p).mpr hp2')
          | cons x ctx3 =>
            rw [List.cons_append] at hp2
            injection hp2 with hx hrest
            have h3 : ctx3 ++ p2 = [] := hrest.symm
            have : ctx3 = [] := by
              cases ctx3 with
              | nil => rfl
              | cons y ys => simp at h3
            subst this
            exact hnpre (by
              rw [← hx]
              decide)
      · rw [show str "data:" = 'd' :: str "ata:" from rfl,
          show ('/' :: ctx2) ++ p = '/' :: (ctx2 ++ p) from rfl,
          List.cons_prefix_cons] at hc
        exact absurd hc.1 (by decide)
      · rw [show str "#" = '#' :: ([] : List Char) from rfl,
          show ('/' :: ctx2) ++ p = '/' :: (ctx2 ++ p) from rfl,
          List.cons_prefix_cons] at hc
        exact absurd hc.1 (by decide)
      · rw [show str "mailto:" = 'm' :: str "ailto:" from rfl,
          show ('/' :: ctx2) ++ p = '/' :: (ctx2 ++ p) from rfl,
          List.cons_prefix_cons] at hc
        exact absurd hc.1 (by decide)

theorem rewriteValue_idem {ctx p : List Char} (hctx : ctxOK ctx) :
    rewriteValue ctx (rewriteValue ctx p) = rewriteValue ctx p := by
  unfold rewriteValue
  by_cases hsl : jsStartsWith (str "/") p = true
  · rw [if_pos hsl, if_pos hsl]
  · rw [if_neg hsl]
    rcases hctx.1 with rfl | ⟨hpre, -⟩
    · simp only [List.nil_append]
      rw [if_neg hsl]
    · have hstart : jsStartsWith (str "/") (ctx ++ p) = true := by
        rw [jsStartsWith_iff]
        exact hpre.trans (List.prefix_append ctx p)
      rw [if_pos hstart]

theorem tryMatch_some_starts {s : List Char} {m : AMatch} (h : tryMatch s = some m) :
    str "src=" <+: s ∨ str "href=" <+: s := by
  obtain ⟨hs, ha, -⟩ := tryMatch_some h
  rcases ha with h1 | h1
  · left
    rw [hs, h1, show str "src" ++ '=' :: m.q :: (m.path ++ m.q2 :: m.rest) =
      str "src=" ++ (m.q :: (m.path ++ m.q2 :: m.rest)) from rfl]
    exact List.prefix_append _ _
  · right
    rw [hs, h1, show str "href" ++ '=' :: m.q :: (m.path ++ m.q2 :: m.rest) =
      str "href=" ++ (m.q :: (m.path ++ m.q2 :: m.rest)) from rfl]
    exact List.prefix_append _ _

theorem tryMatch_none_char (c : Char) (t : List Char) (hs : ¬ c = 's')
    (hh : ¬ c = 'h') : tryMatch (c :: t) = none := by
  cases hm : tryMatch (c :: t) with
  | none => rfl
  | some m =>
    exfalso
    rcases tryMatch_some_starts hm with hp | hp
    · rw [show str "src=" = 's' :: str "rc=" from rfl, List.cons_prefix_cons] at hp
      exact hs hp.1.symm
    · rw [show str "href=" = 'h' :: str "ref=" from rfl, List.cons_prefix_cons] at hp
      exact hh hp.1.symm

theorem tryMatch_none_h (c : Char) (t : List Char) (hr : ¬ c = 'r') :
    tryMatch ('h' :: c :: t) = none := by
  cases hm : tryMatch ('h' :: c :: t) with
  | none => rfl
  | some m =>
    exfalso
    rcases tryMatch_some_starts hm with hp | hp
    · rw [show str "src=" = 's' :: str "rc=" from rfl, List.cons_prefix_cons] at hp
      exact absurd hp.1 (by decide)
    · rw [show str "href=" = 'h' :: 'r' :: str "ef=" from rfl, List.cons_prefix_cons,
        List.cons_prefix_cons] at hp
      exact hr hp.2.1.symm

theorem tryMatch_none_s (c : Char) (t : List Char) (hr : ¬ c = 'r') :
    tryMatch ('s' :: c :: t) = none := by
  cases hm : tryMatch ('s' :: c :: t) with
  | none => rfl
  | some m =>
    exfalso
    rcases tryMatch_some_starts hm with hp | hp
    · rw [show str "src=" = 's' :: 'r' :: str "c=" from rfl, List.cons_prefix_cons,
        List.cons_prefix_cons] at hp
      exact hr hp.2.1.symm
    · rw [show str "href=" = 'h' :: str "ref=" from rfl, List.cons_prefix_cons] at hp
      exact absurd hp.1 (by decide)

theorem tryMatch_none_quote (q : Char) (hq : isQuoteC q = true) (t : List Char) :
    tryMatch (q :: t) = none := by
  obtain ⟨h1, h2, -⟩ := not_isQuoteC_eq hq
  exact tryMatch_none_char q t h1 h2

theorem tryMatch_some_has_quote {s : List Char} {m : AMatch}
    (h : tryMatch s = some m) : ∃ c ∈ s, isQuoteC c = true := by
  obtain ⟨hs, -, hq, -⟩ := tryMatch_some h
  exact ⟨m.q, by rw [hs]; simp, hq⟩

theorem tryMatch_none_of_quote_free (t : List Char)
    (h : ∀ c ∈ t, isQuoteC c = false) : tryMatch t = none := by
  cases hm : tryMatch t with
  | none => rfl
  | some m =>
    exfalso
    obtain ⟨c, hc, hq⟩ := tryMatch_some_has_quote hm
    rw [h c hc] at hq
    exact absurd hq (by simp)

theorem noMatchBelow_zero (s : List Char) : noMatchBelow 0 s :=
  fun j hj => absurd hj (by omega)

theorem noMatchBelow_cons {c : Char} {s : List Char} {n : Nat}
    (h0 : tryMatch (c :: s) = none) (h : noMatchBelow n s) :
    noMatchBelow (n + 1) (c :: s) := by
  intro j hj
  cases j with
  | zero => exact h0
  | succ j =>
    rw [List.drop_succ_cons]
    exact h j (by omega)

theorem noMatchBelow_shift {c : Char} {s : List Char} {n : Nat}
    (h : noMatchBelow (n + 1) (c :: s)) : noMatchBelow n s := by
  intro j hj
  have h2 := h (j + 1) (by omega)
  rwa [List.drop_succ_cons] at h2

theorem noMatchBelow_mono {s : List Char} {m n : Nat} (hmn : m ≤ n)
    (h : noMatchBelow n s) : noMatchBelow m s :=
  fun j hj => h j (by omega)

/-- Inside any forbidden lookahead alternative no match can start. -/
theorem noMatchBelow_forb (f : List Char) (hf : f ∈ forb) (s3 : List Char) :
    noMatchBelow f.length (f ++ s3) := by
  simp only [forb, List.mem_cons, List.not_mem_nil, or_false] at hf
  rcases hf with rfl | rfl | rfl | rfl | rfl
  · rw [show (str "http").length = 4 from by decide,
      show str "http" ++ s3 = 'h' :: 't' :: 't' :: 'p' :: s3 from rfl]
    exact noMatchBelow_cons (tryMatch_none_h 't' _ (by decide))
      (noMatchBelow_cons (tryMatch_none_char 't' _ (by decide) (by decide))
        (noMatchBelow_cons (tryMatch_none_char 't' _ (by decide) (by decide))
          (noMatchBelow_cons (tryMatch_none_char 'p' _ (by decide) (by decide))
            (noMatchBelow_zero _))))
  · rw [show (str "//").length = 2 from by decide,
      show str "//" ++ s3 = '/' :: '/' :: s3 from rfl]
    exact noMatchBelow_cons (tryMatch_none_char '/' _ (by decide) (by decide))
      (noMatchBelow_cons (tryMatch_none_char '/' _ (by decide) (by decide))
        (noMatchBelow_zero _))
  · rw [show (str "data:").length = 5 from by decide,
      show str "data:" ++ s3 = 'd' :: 'a' :: 't' :: 'a' :: ':' :: s3 from rfl]
    exact noMatchBelow_cons (tryMatch_none_char 'd' _ (by decide) (by decide))
      (noMatchBelow_cons (tryMatch_none_char 'a' _ (by decide) (by decide))
        (noMatchBelow_cons (tryMatch_none_char 't' _ (by decide) (by decide))
          (noMatchBelow_cons (tryMatch_none_char 'a' _ (by decide) (by decide))
            (noMatchBelow_cons (tryMatch_none_char ':' _ (by decide) (by decide))
              (noMatchBelow_zero _)))))
  · rw [show (str "#").length = 1 from by decide,
      show str "#" ++ s3 = '#' :: s3 from rfl]
    exact noMatchBelow_cons (tryMatch_none_char '#' _ (by decide) (by decide))
      (noMatchBelow_zero _)
  · rw [show (str "mailto:").length = 7 from by decide,
      show str "mailto:" ++ s3 = 'm' :: 'a' :: 'i' :: 'l' :: 't' :: 'o' :: ':' :: s3 from rfl]
    exact noMatchBelow_cons (tryMatch_none_char 'm' _ (by decide) (by decide))
      (noMatchBelow_cons (tryMatch_none_char 'a' _ (by decide) (by decide))
        (noMatchBelow_cons (tryMatch_none_char 'i' _ (by decide) (by decide))
          (noMatchBelow_cons (tryMatch_none_char 'l' _ (by decide) (by decide))
            (noMatchBelow_cons (tryMatch_none_char 't' _ (by decide) (by decide))
              (noMatchBelow_cons (tryMatch_none_char 'o' _ (by decide) (by decide))
                (noMatchBelow_cons (tryMatch_none_char ':' _ (by decide) (by decide))
                  (noMatchBelow_zero _)))))))

/-- The rewrite copies any match-free prefix verbatim. -/
theorem rewriteAttrs_take (ctx vp : List Char) :
    ∀ s n, noMatchBelow n s → (rewriteAttrs ctx vp s).take n = s.take n := by
  intro s
  induction s with
  | nil => intro n _; rfl
  | cons c cs ih =>
    intro n h
    cases n with
    | zero => simp
    | succ n =>
      have h0 : tryMatch (c :: cs) = none := by
        have h1 := h 0 (by omega)
        simpa using h1
      rw [rewriteAttrs_cons_none ctx vp h0]
      simp only [List.take_succ_cons]
      rw [ih n (noMatchBelow_shift h)]

/-- The rewrite is the identity on a string with no match at any position. -/
theorem rewriteAttrs_id_of_noMatch (ctx vp : List Char) :
    ∀ s, (∀ j, tryMatch (s.drop j) = none) → rewriteAttrs ctx vp s = s := by
  intro s
  induction s with
  | nil => intro _; rfl
  | cons c cs ih =>
    intro h
    have h0 : tryMatch (c :: cs) = none := by
      have h1 := h 0
      simpa using h1
    rw [rewriteAttrs_cons_none ctx vp h0, ih (fun j => by
      have h2 := h (j + 1)
      rwa [List.drop_succ_cons] at h2)]

/-- The first five characters always survive the rewrite (a replaced segment
begins with the attribute, the equals sign and the opening quote, at least
five characters shared with the original). -/
theorem rewriteAttrs_take_five (ctx vp : List Char) :
    ∀ s n, n ≤ 5 → (rewriteAttrs ctx vp s).take n = s.take n := by
  intro s
  induction s with
  | nil => intro n _; rfl
  | cons c cs ih =>
    intro n hn
    cases hm : tryMatch (c :: cs) with
    | none =>
      rw [rewriteAttrs_cons_none ctx vp hm]
      cases n with
      | zero => simp
      | succ n =>
        simp only [List.take_succ_cons]
        rw [ih n (by omega)]
    | some m =>
      rw [rewriteAttrs_cons_some ctx vp hm]
      obtain ⟨hs, ha, -⟩ := tryMatch_some hm
      have hlen : 5 ≤ (m.attr ++ ['=', m.q]).length := by
        have h3 : 3 ≤ m.attr.length := by
          rcases ha with h | h <;> rw [h] <;> decide
        simp [List.length_append]
        omega
      have hseg : renderSeg ctx vp m =
          (m.attr ++ ['=', m.q]) ++ ((rewriteValue ctx m.path ++ vp) ++ [m.q]) := by
        unfold renderSeg
        simp
      have horig : c :: cs = (m.attr ++ ['=', m.q]) ++ (m.path ++ m.q2 :: m.rest) := by
        rw [hs]
        simp
      rw [hseg, horig]
      conv_lhs => rw [List.append_assoc]
      rw [List.take_append_of_le_length (le_trans hn hlen),
        List.take_append_of_le_length (le_trans hn hlen)]

theorem take_le_congr {X Y : List Char} {n k : Nat} (h : X.take n = Y.take n)
    (hk : k ≤ n) : X.take k = Y.take k := by
  have h2 := congrArg (List.take k) h
  rwa [List.take_take, List.take_take, Nat.min_eq_left hk] at h2

theorem take_drop_congr {X Y : List Char} {n k m : Nat} (h : X.take n = Y.take n)
    (hkm : k + m ≤ n) : (X.drop k).take m = (Y.drop k).take m := by
  have h2 := congrArg (List.drop k) h
  rw [List.drop_take, List.drop_take] at h2
  have h3 := congrArg (List.take m) h2
  rwa [List.take_take, List.take_take, Nat.min_eq_left (by omega)] at h3

theorem getElem?_take_congr {X Y : List Char} {n k : Nat} (h : X.take n = Y.take n)
    (hk : k < n) : X[k]? = Y[k]? := by
  have h2 : (X.take n)[k]? = (Y.take n)[k]? := by rw [h]
  rwa [List.getElem?_take_of_lt hk, List.getElem?_take_of_lt hk] at h2

theorem jsStartsWith_congr {p X Y : List Char}
    (h : X.take p.length = Y.take p.length) :
    jsStartsWith p X = jsStartsWith p Y := by
  cases hx : jsStartsWith p X with
  | true =>
    have h2 := (jsStartsWith_iff _ _).mp hx
    rw [List.prefix_iff_eq_take] at h2
    exact ((jsStartsWith_iff _ _).mpr (List.prefix_iff_eq_take.mpr (h2.trans h))).symm
  | false =>
    cases hy : jsStartsWith p Y with
    | false => rfl
    | true =>
      exfalso
      have h2 := (jsStartsWith_iff _ _).mp hy
      rw [List.prefix_iff_eq_take] at h2
      have h3 : jsStartsWith p X = true :=
        (jsStartsWith_iff _ _).mpr (List.prefix_iff_eq_take.mpr (h2.trans h.symm))
      rw [h3] at hx
      exact absurd hx (by simp)

theorem tryMatch_nil_of_attrSplit_nil {s a : List Char}
    (h : attrSplit s = some (a, [])) : tryMatch s = none := by
  unfold tryMatch
  rw [h]

/-- Core of the idempotence argument: a match failure at the head survives a
rewrite of the tail, given matching attribute splits on both sides and a
certificate that the attribute characters admit no match start. -/
theorem transfer_core (ctx vp : List Char) {c : Char} {cs a : List Char} (al : Nat)
    (hal : al < 5)
    (h : tryMatch (c :: cs) = none)
    (hspc : attrSplit (c :: cs) = some (a, cs.drop al))
    (hspY : attrSplit (c :: rewriteAttrs ctx vp cs)
      = some (a, (rewriteAttrs ctx vp cs).drop al))
    (hchain : ∀ n, noMatchBelow n (cs.drop al) → noMatchBelow (al + n) cs) :
    tryMatch (c :: rewriteAttrs ctx vp cs) = none := by
  have h5 : (rewriteAttrs ctx vp cs).take 5 = cs.take 5 :=
    rewriteAttrs_take_five ctx vp cs 5 le_rfl
  cases hget : cs[al]? with
  | none =>
    have hgY : (rewriteAttrs ctx vp cs)[al]? = none := by
      rw [getElem?_take_congr h5 hal, hget]
    have hYnil : (rewriteAttrs ctx vp cs).drop al = [] :=
      List.drop_eq_nil_of_le (List.getElem?_eq_none_iff.mp hgY)
    rw [hYnil] at hspY
    exact tryMatch_nil_of_attrSplit_nil hspY
  | some q =>
    have hgY : (rewriteAttrs ctx vp cs)[al]? = some q := by
      rw [getElem?_take_congr h5 hal, hget]
    have hcs_cons : cs.drop al = q :: cs.drop (al + 1) := by
      have h1 : (cs.drop al).head? = some q := by
        rw [List.head?_drop]
        exact hget
      have h2 := List.cons_head?_tail h1
      rw [List.tail_drop] at h2
      exact h2.symm
    have hY_cons : (rewriteAttrs ctx vp cs).drop al
        = q :: (rewriteAttrs ctx vp cs).drop (al + 1) := by
      have h1 : ((rewriteAttrs ctx vp cs).drop al).head? = some q := by
        rw [List.head?_drop]
        exact hgY
      have h2 := List.cons_head?_tail h1
      rw [List.tail_drop] at h2
      exact h2.symm
    rw [hcs_cons] at hspc
    rw [hY_cons] at hspY
    rw [tryMatch_cons_quote hspc] at h
    rw [tryMatch_cons_quote hspY]
    by_cases hq : isQuoteC q = true
    · by_cases hla : lookaheadOK (cs.drop (al + 1)) = true
      · rw [if_pos (by simp [hq, hla])] at h
        cases hdw : (cs.drop (al + 1)).dropWhile (fun x => !(isQuoteC x)) with
        | cons q2 rest =>
          rw [hdw] at h
          exact absurd h (by simp)
        | nil =>
          have hqf : ∀ x ∈ cs.drop (al + 1), isQuoteC x = false := by
            intro x hx
            have h3 := List.dropWhile_eq_nil_iff.mp hdw x hx
            simpa using h3
          have hall : ∀ j, tryMatch (cs.drop j) = none := by
            intro j
            by_cases hj : j < al + 1
            · exact hchain 1 (fun k hk => by
                have hk0 : k = 0 := by omega
                subst hk0
                rw [List.drop_zero, hcs_cons]
                exact tryMatch_none_quote q hq _) j (by omega)
            · have hsub : (cs.drop (al + 1)).drop (j - (al + 1)) = cs.drop j := by
                rw [List.drop_drop, show al + 1 + (j - (al + 1)) = j from by omega]
              rw [← hsub]
              exact tryMatch_none_of_quote_free _
                (fun x hx => hqf x (List.mem_of_mem_drop hx))
          rw [rewriteAttrs_id_of_noMatch ctx vp cs hall]
          rw [if_pos (by simp [hq, hla]), hdw]
      · obtain ⟨f, hf, hjs⟩ : ∃ f ∈ forb, jsStartsWith f (cs.drop (al + 1)) = true := by
          have h2 : lookaheadOK (cs.drop (al + 1)) = false := by
            cases h3 : lookaheadOK (cs.drop (al + 1)) with
            | false => rfl
            | true => exact absurd h3 hla
          unfold lookaheadOK at h2
          obtain ⟨f, hf, hnf⟩ := List.all_eq_false.mp h2
          exact ⟨f, hf, by simpa using hnf⟩
        obtain ⟨t, ht⟩ := (jsStartsWith_iff _ _).mp hjs
        have hwin : noMatchBelow (al + (1 + f.length)) cs := by
          apply hchain
          rw [hcs_cons, ← ht]
          exact noMatchBelow_mono (by omega)
            (noMatchBelow_cons (tryMatch_none_quote q hq _) (noMatchBelow_forb f hf t))
        have htakeN : (rewriteAttrs ctx vp cs).take (al + (1 + f.length))
            = cs.take (al + (1 + f.length)) :=
          rewriteAttrs_take ctx vp cs _ hwin
        have hjsY : jsStartsWith f ((rewriteAttrs ctx vp cs).drop (al + 1))
            = jsStartsWith f (cs.drop (al + 1)) :=
          jsStartsWith_congr (take_drop_congr htakeN (by omega))
        have hlaY : lookaheadOK ((rewriteAttrs ctx vp cs).drop (al + 1)) = false := by
          unfold lookaheadOK
          apply List.all_eq_false.mpr
          refine ⟨f, hf, ?_⟩
          simp [hjsY, hjs]
        rw [if_neg (by simp [hlaY])]
    · rw [if_neg (by simp [hq])]

/-- A failed match at a position stays failed after the remainder of the
string is rewritten: the rewrite never creates a new match site. -/
theorem tryMatch_none_transfer (ctx vp : List Char) {c : Char} {cs : List Char}
    (h : tryMatch (c :: cs) = none) :
    tryMatch (c :: rewriteAttrs ctx vp cs) = none := by
  have h5 : (rewriteAttrs ctx vp cs).take 5 = cs.take 5 :=
    rewriteAttrs_take_five ctx vp cs 5 le_rfl
  have htake4 : (c :: rewriteAttrs ctx vp cs).take 4 = (c :: cs).take 4 := by
    rw [show (c :: rewriteAttrs ctx vp cs).take 4
        = c :: (rewriteAttrs ctx vp cs).take 3 from rfl,
      show (c :: cs).take 4 = c :: cs.take 3 from rfl, take_le_congr h5 (by omega)]
  have htake5 : (c :: rewriteAttrs ctx vp cs).take 5 = (c :: cs).take 5 := by
    rw [show (c :: rewriteAttrs ctx vp cs).take 5
        = c :: (rewriteAttrs ctx vp cs).take 4 from rfl,
      show (c :: cs).take 5 = c :: cs.take 4 from rfl, take_le_congr h5 (by omega)]
  have hsrc : jsStartsWith (str "src=") (c :: rewriteAttrs ctx vp cs)
      = jsStartsWith (str "src=") (c :: cs) := jsStartsWith_congr htake4
  have hhref : jsStartsWith (str "href=") (c :: rewriteAttrs ctx vp cs)
      = jsStartsWith (str "href=") (c :: cs) := jsStartsWith_congr htake5
  cases hsp : attrSplit (c :: cs) with
  | none =>
    have ht1 : jsStartsWith (str "src=") (c :: cs) = false := by
      cases hx : jsStartsWith (str "src=") (c :: cs) with
      | false => rfl
      | true =>
        exfalso
        unfold attrSplit at hsp
        rw [if_pos hx] at hsp
        exact absurd hsp (by simp)
    have ht2 : jsStartsWith (str "href=") (c :: cs) = false := by
      cases hx : jsStartsWith (str "href=") (c :: cs) with
      | false => rfl
      | true =>
        exfalso
        unfold attrSplit at hsp
        rw [if_neg (by rw [ht1]; exact Bool.false_ne_true), if_pos hx] at hsp
        exact absurd hsp (by simp)
    have hspY : attrSplit (c :: rewriteAttrs ctx vp cs) = none := by
      unfold attrSplit
      rw [if_neg (by rw [hsrc, ht1]; exact Bool.false_ne_true),
        if_neg (by rw [hhref, ht2]; exact Bool.false_ne_true)]
    unfold tryMatch
    rw [hspY]
  | some p =>
    obtain ⟨a, s1⟩ := p
    obtain ⟨hstruct, ha⟩ := attrSplit_some hsp
    rcases ha with rfl | rfl
    · have h2 := hstruct
      rw [show str "src" ++ '=' :: s1 = 's' :: 'r' :: 'c' :: '=' :: s1 from rfl] at h2
      obtain ⟨hc, hcs⟩ := List.cons_eq_cons.mp h2
      subst hc
      subst hcs
      have hspc : attrSplit ('s' :: 'r' :: 'c' :: '=' :: s1)
          = some (str "src", ('r' :: 'c' :: '=' :: s1).drop 3) := by
        unfold attrSplit
        rw [if_pos (show jsStartsWith (str "src=") ('s' :: 'r' :: 'c' :: '=' :: s1)
          = true from jsStartsWith_append (str "src=") s1)]
        rfl
      have hspcY : attrSplit ('s' :: rewriteAttrs ctx vp ('r' :: 'c' :: '=' :: s1))
          = some (str "src", (rewriteAttrs ctx vp ('r' :: 'c' :: '=' :: s1)).drop 3) := by
        unfold attrSplit
        rw [hsrc, if_pos (show jsStartsWith (str "src=") ('s' :: 'r' :: 'c' :: '=' :: s1)
          = true from jsStartsWith_append (str "src=") s1)]
        rfl
      have hchain : ∀ n, noMatchBelow n (('r' :: 'c' :: '=' :: s1).drop 3)
          → noMatchBelow (3 + n) ('r' :: 'c' :: '=' :: s1) := by
        intro n hn
        have h1 : noMatchBelow (n + 1) ('=' :: s1) :=
          noMatchBelow_cons (tryMatch_none_char '=' _ (by decide) (by decide)) hn
        have h2 : noMatchBelow (n + 2) ('c' :: '=' :: s1) :=
          noMatchBelow_cons (tryMatch_none_char 'c' _ (by decide) (by decide)) h1
        have h3 : noMatchBelow (n + 3) ('r' :: 'c' :: '=' :: s1) :=
          noMatchBelow_cons (tryMatch_none_char 'r' _ (by decide) (by decide)) h2
        exact noMatchBelow_mono (by omega) h3
      exact transfer_core ctx vp 3 (by omega) h hspc hspcY hchain
    · have h2 := hstruct
      rw [show str "href" ++ '=' :: s1
          = 'h' :: 'r' :: 'e' :: 'f' :: '=' :: s1 from rfl] at h2
      obtain ⟨hc, hcs⟩ := List.cons_eq_cons.mp h2
      subst hc
      subst hcs
      have hnosrc : jsStartsWith (str "src=") ('h' :: 'r' :: 'e' :: 'f' :: '=' :: s1)
          = false := startsWith_src_of_href s1
      have hspc : attrSplit ('h' :: 'r' :: 'e' :: 'f' :: '=' :: s1)
          = some (str "href", ('r' :: 'e' :: 'f' :: '=' :: s1).drop 4) := by
        unfold attrSplit
        rw [if_neg (by rw [hnosrc]; exact Bool.false_ne_true),
          if_pos (show jsStartsWith (str "href=") ('h' :: 'r' :: 'e' :: 'f' :: '=' :: s1)
            = true from jsStartsWith_append (str "href=") s1)]
        rfl
      have hspcY : attrSplit ('h' :: rewriteAttrs ctx vp ('r' :: 'e' :: 'f' :: '=' :: s1))
          = some (str "href",
            (rewriteAttrs ctx vp ('r' :: 'e' :: 'f' :: '=' :: s1)).drop 4) := by
        unfold attrSplit
        rw [hsrc, if_neg (by rw [hnosrc]; exact Bool.false_ne_true),
          hhref, if_pos (show jsStartsWith (str "href=")
            ('h' :: 'r' :: 'e' :: 'f' :: '=' :: s1)
            = true from jsStartsWith_append (str "href=") s1)]
        rfl
      have hchain : ∀ n, noMatchBelow n (('r' :: 'e' :: 'f' :: '=' :: s1).drop 4)
          → noMatchBelow (4 + n) ('r' :: 'e' :: 'f' :: '=' :: s1) := by
        intro n hn
        have h1 : noMatchBelow (n + 1) ('=' :: s1) :=
          noMatchBelow_cons (tryMatch_none_char '=' _ (by decide) (by decide)) hn
        have h2 : noMatchBelow (n + 2) ('f' :: '=' :: s1) :=
          noMatchBelow_cons (tryMatch_none_char 'f' _ (by decide) (by decide)) h1
        have h3 : noMatchBelow (n + 3) ('e' :: 'f' :: '=' :: s1) :=
          noMatchBelow_cons (tryMatch_none_char 'e' _ (by decide) (by decide)) h2
        have h4 : noMatchBelow (n + 4) ('r' :: 'e' :: 'f' :: '=' :: s1) :=
          noMatchBelow_cons (tryMatch_none_char 'r' _ (by decide) (by decide)) h3
        exact noMatchBelow_mono (by omega) h4
      exact transfer_core ctx vp 4 (by omega) h hspc hspcY hchain

/-- Unfolding of the rewrite at a rendered segment. -/
theorem rewriteAttrs_seg (ctx vp : List Char) {a : List Char} (q : Char)
    (v t : List Char) (ha : a = str "src" ∨ a = str "href")
    (hmatch : tryMatch (a ++ '=' :: q :: (v ++ q :: t)) = some ⟨a, q, v, q, t⟩) :
    rewriteAttrs ctx vp (a ++ '=' :: q :: (v ++ q :: t))
      = renderSeg ctx vp ⟨a, q, v, q, t⟩ ++ rewriteAttrs ctx vp t := by
  rcases ha with rfl | rfl
  · exact rewriteAttrs_cons_some ctx vp hmatch
  · exact rewriteAttrs_cons_some ctx vp hmatch

/-- With an empty version parameter and a stable context, a second pass of
the attribute rewrite changes nothing. -/
theorem rewriteAttrs_idem {ctx : List Char} (hctx : ctxOK ctx) :
    ∀ s, rewriteAttrs ctx [] (rewriteAttrs ctx [] s) = rewriteAttrs ctx [] s := by
  have main : ∀ n s, s.length ≤ n →
      rewriteAttrs ctx [] (rewriteAttrs ctx [] s) = rewriteAttrs ctx [] s := by
    intro n
    induction n with
    | zero =>
      intro s hs
      have hnil : s = [] := List.eq_nil_of_length_eq_zero (by omega)
      subst hnil
      rfl
    | succ n ih =>
      intro s hs
      cases s with
      | nil => rfl
      | cons c cs =>
        cases hm : tryMatch (c :: cs) with
        | none =>
          rw [rewriteAttrs_cons_none ctx [] hm,
            rewriteAttrs_cons_none ctx [] (tryMatch_none_transfer ctx [] hm),
            ih cs (by simp only [List.length_cons] at hs; omega)]
        | some m =>
          rw [rewriteAttrs_cons_some ctx [] hm]
          obtain ⟨hs2, ha, hq, hq2, hpv, hla⟩ := tryMatch_some hm
          have hlam : ∀ f ∈ forb, ¬ f <+: m.path :=
            (lookaheadOK_append_quote hq2).mp hla
          have hv0q : ∀ x ∈ rewriteValue ctx m.path, isQuoteC x = false :=
            rewriteValue_quote_free hctx hpv
          have hv0s : ∀ f ∈ forb, ¬ f <+: rewriteValue ctx m.path :=
            rewriteValue_safe hctx hlam
          have hmatch2 : tryMatch (m.attr ++ '=' :: m.q ::
              (rewriteValue ctx m.path ++ m.q :: rewriteAttrs ctx [] m.rest))
              = some ⟨m.attr, m.q, rewriteValue ctx m.path, m.q,
                  rewriteAttrs ctx [] m.rest⟩ :=
            tryMatch_seg ha hq hv0q hv0s
          have hshape : renderSeg ctx [] m ++ rewriteAttrs ctx [] m.rest
              = m.attr ++ '=' :: m.q ::
                (rewriteValue ctx m.path ++ m.q :: rewriteAttrs ctx [] m.rest) := by
            unfold renderSeg
            simp
          rw [hshape, rewriteAttrs_seg ctx [] m.q (rewriteValue ctx m.path)
            (rewriteAttrs ctx [] m.rest) ha hmatch2]
          have hrest : rewriteAttrs ctx [] (rewriteAttrs ctx [] m.rest)
              = rewriteAttrs ctx [] m.rest := by
            apply ih
            have h6 := tryMatch_length hm
            simp only [List.length_cons] at h6 hs
            omega
          rw [hrest]
          have hrv := @rewriteValue_idem ctx m.path hctx
          unfold renderSeg
          simp [hrv]
  intro s
  exact main s.length s le_rfl

theorem infixOfPre {p l : List Char} (h : p <+: l) : p <:+: l := by
  obtain ⟨t, ht⟩ := h
  exact ⟨[], t, by simp [ht]⟩

theorem infixOfSuf {p l : List Char} (h : p <:+ l) : p <:+: l := by
  obtain ⟨s, hs⟩ := h
  exact ⟨s, [], by simp [hs]⟩

theorem infixTrans {a b c : List Char} (h1 : a <:+: b) (h2 : b <:+: c) :
    a <:+: c := h1.trans h2

theorem takePre (n : Nat) (l : List Char) : l.take n <+: l :=
  ⟨l.drop n, List.take_append_drop n l⟩

/-- An infix of an append lies in the left part, in the right part, or
straddles the seam. -/
theorem infix_append_split {p A B : List Char} (h : p <:+: A ++ B) :
    p <:+: A ∨ p <:+: B ∨
      ∃ p1 p2, p = p1 ++ p2 ∧ p1 ≠ [] ∧ p2 ≠ [] ∧ p1 <:+ A ∧ p2 <+: B := by
  obtain ⟨s, t, hst⟩ := h
  have hdp : p ++ t = (A ++ B).drop s.length := by
    rw [← hst, List.append_assoc, List.drop_left]
  have hp : p = ((A ++ B).drop s.length).take p.length := by
    rw [← hdp, List.take_left]
  rw [List.drop_append_eq_append_drop, List.take_append_eq_append_take] at hp
  by_cases h1 : s.length + p.length ≤ A.length
  · left
    rw [show p.length - (A.drop s.length).length = 0 from by
        rw [List.length_drop]; omega,
      List.take_zero, List.append_nil] at hp
    have hpA : p <+: A.drop s.length := by
      rw [hp]
      exact takePre _ _
    exact infixTrans (infixOfPre hpA) (infixOfSuf (List.drop_suffix _ _))
  · by_cases hA : A.length ≤ s.length
    · right
      left
      have hAnil : A.drop s.length = [] := List.drop_eq_nil_of_le hA
      rw [hAnil] at hp
      simp only [List.take_nil, List.nil_append, List.length_nil,
        Nat.sub_zero] at hp
      have hpB : p <+: B.drop (s.length - A.length) := by
        rw [hp]
        exact takePre _ _
      exact infixTrans (infixOfPre hpB) (infixOfSuf (List.drop_suffix _ _))
    · right
      right
      have hlen1 : (A.drop s.length).length = A.length - s.length :=
        List.length_drop _ _
      have h2 : (A.drop s.length).take p.length = A.drop s.length :=
        List.take_of_length_le (by rw [hlen1]; omega)
      refine ⟨A.drop s.length,
        (B.drop (s.length - A.length)).take (p.length - (A.drop s.length).length),
        ?_, ?_, ?_, ?_, ?_⟩
      · conv_lhs => rw [hp]
        rw [h2]
      · have hpos : 0 < (A.drop s.length).length := by
          rw [hlen1]
          omega
        exact List.ne_nil_of_length_pos hpos
      · intro hnil
        have hplen := congrArg List.length hp
        rw [List.length_append, hnil] at hplen
        rw [h2, hlen1] at hplen
        simp at hplen
        omega
      · exact List.drop_suffix _ _
      · rw [show s.length - A.length = 0 from by omega, List.drop_zero]
        exact takePre _ _

theorem isQuoteC_ne_lt {q : Char} (hq : isQuoteC q = true) : ¬ q = '<' := by
  unfold isQuoteC at hq
  rcases Bool.or_eq_true_iff.mp hq with h | h
  · rw [beq_iff_eq.mp h]
    decide
  · rw [beq_iff_eq.mp h]
    decide

theorem attrEq_no_lt {a : List Char} (ha : a = str "src" ∨ a = str "href")
    {q : Char} (hq : isQuoteC q = true) :
    ∀ x ∈ a ++ ['=', q], ¬ x = '<' := by
  intro x hx
  rcases List.mem_append.mp hx with hxa | hxq
  · rcases ha with rfl | rfl
    · rw [show str "src" = ['s', 'r', 'c'] from rfl] at hxa
      simp only [List.mem_cons, List.not_mem_nil, or_false] at hxa
      rcases hxa with rfl | rfl | rfl <;> decide
    · rw [show str "href" = ['h', 'r', 'e', 'f'] from rfl] at hxa
      simp only [List.mem_cons, List.not_mem_nil, or_false] at hxa
      rcases hxa with rfl | rfl | rfl | rfl <;> decide
  · simp only [List.mem_cons, List.not_mem_nil, or_false] at hxq
    rcases hxq with rfl | rfl
    · decide
    · exact isQuoteC_ne_lt hq

/-- An already-present base element survives the attribute rewrite: the
rewrite never deletes an occurrence of the marker the injection tests for. -/
theorem base_infix_preserved (ctx vp : List Char) :
    ∀ n doc, doc.length ≤ n → str "<base " <:+: doc →
      str "<base " <:+: rewriteAttrs ctx vp doc := by
  intro n
  induction n with
  | zero =>
    intro doc hd hinf
    have hnil : doc = [] := List.eq_nil_of_length_eq_zero (by omega)
    subst hnil
    exact absurd (List.infix_nil.mp hinf) (by decide)
  | succ n ih =>
    intro doc hd hinf
    cases doc with
    | nil => exact absurd (List.infix_nil.mp hinf) (by decide)
    | cons c cs =>
      cases hm : tryMatch (c :: cs) with
      | none =>
        rcases List.infix_cons_iff.mp hinf with hpre | htail
        · have h3 := List.prefix_iff_eq_take.mp hpre
          obtain ⟨r, hr⟩ := hpre
          have hnm : noMatchBelow 6 (c :: cs) := by
            rw [← hr,
              show str "<base " ++ r = '<' :: 'b' :: 'a' :: 's' :: 'e' :: ' ' :: r from rfl]
            exact noMatchBelow_cons (tryMatch_none_char '<' _ (by decide) (by decide))
              (noMatchBelow_cons (tryMatch_none_char 'b' _ (by decide) (by decide))
                (noMatchBelow_cons (tryMatch_none_char 'a' _ (by decide) (by decide))
                  (noMatchBelow_cons (tryMatch_none_s 'e' _ (by decide))
                    (noMatchBelow_cons (tryMatch_none_char 'e' _ (by decide) (by decide))
                      (noMatchBelow_cons (tryMatch_none_char ' ' _ (by decide) (by decide))
                        (noMatchBelow_zero _))))))
          have htake := rewriteAttrs_take ctx vp (c :: cs) 6 hnm
          have hpre2 : str "<base " <+: rewriteAttrs ctx vp (c :: cs) := by
            rw [List.prefix_iff_eq_take, show (str "<base ").length = 6 from by decide,
              htake]
            rwa [show (str "<base ").length = 6 from by decide] at h3
          exact infixOfPre hpre2
        · rw [rewriteAttrs_cons_none ctx vp hm]
          exact List.infix_cons (ih cs (by simp only [List.length_cons] at hd; omega) htail)
      | some m =>
        rw [rewriteAttrs_cons_some ctx vp hm]
        obtain ⟨hs2, ha, hq, hq2, hpv, hla⟩ := tryMatch_some hm
        have hgroup : c :: cs = (m.attr ++ ['=', m.q]) ++ (m.path ++ ([m.q2] ++ m.rest)) := by
          rw [hs2]
          simp
        rw [hgroup] at hinf
        have hbq : ∀ x ∈ str "<base ", isQuoteC x = false := by decide
        rcases infix_append_split hinf with hL | hR | ⟨p1, p2, hp12, hp1n, hp2n, hp1s, hp2p⟩
        · exfalso
          exact attrEq_no_lt ha hq '<' (hL.subset (by decide)) rfl
        · rcases infix_append_split hR with hPath | hQR | ⟨r1, r2, hr12, hr1n, hr2n, hr1s, hr2p⟩
          · have h1 : m.path <:+ rewriteValue ctx m.path := by
              unfold rewriteValue
              split
              · exact List.suffix_refl _
              · exact List.suffix_append _ _
            have h2 : rewriteValue ctx m.path <:+: renderSeg ctx vp m := by
              refine ⟨m.attr ++ ['=', m.q], vp ++ [m.q], ?_⟩
              unfold renderSeg
              simp
            have h3 : renderSeg ctx vp m
                <+: renderSeg ctx vp m ++ rewriteAttrs ctx vp m.rest :=
              List.prefix_append _ _
            exact infixTrans (infixTrans (infixTrans hPath (infixOfSuf h1)) h2)
              (infixOfPre h3)
          · rcases List.infix_cons_iff.mp
              (show str "<base " <:+: m.q2 :: m.rest by simpa using hQR) with hpre | htail
            · exfalso
              obtain ⟨r, hr⟩ := hpre
              have h5 : ('<' : Char) :: (str "base " ++ r) = m.q2 :: m.rest := hr
              have h4 : ('<' : Char) = m.q2 := (List.cons_eq_cons.mp h5).1
              have h6 := hq2
              rw [← h4] at h6
              exact absurd h6 (by decide)
            · have hrest := ih m.rest (by
                have h6 := tryMatch_length hm
                simp only [List.length_cons] at hd h6
                omega) htail
              exact infixTrans hrest (infixOfSuf (List.suffix_append _ _))
          · exfalso
            have hq2mem : m.q2 ∈ str "<base " := by
              cases p2tail : r2 with
              | nil => exact absurd p2tail hr2n
              | cons x xs =>
                rw [p2tail] at hr2p hr12
                have h4 : x = m.q2 := by
                  rw [show [m.q2] ++ m.rest = m.q2 :: m.rest from rfl] at hr2p
                  exact (List.cons_prefix_cons.mp hr2p).1
                rw [hr12, ← h4]
                exact List.mem_append_right _ (List.mem_cons_self x xs)
            have h7 := hbq m.q2 hq2mem
            rw [hq2] at h7
            exact absurd h7 (by simp)
        · exfalso
          cases p1tail : p1 with
          | nil => exact absurd p1tail hp1n
          | cons x xs =>
            rw [p1tail] at hp12 hp1s
            have h5 : ('<' : Char) :: str "base " = x :: (xs ++ p2) := hp12
            have h4 : ('<' : Char) = x := (List.cons_eq_cons.mp h5).1
            exact attrEq_no_lt ha hq x (hp1s.subset (List.mem_cons_self x xs)) h4.symm

/-- Bridge between the Boolean containment test and the infix relation. -/
theorem jsIncludes_iff (p s : List Char) : jsIncludes p s = true ↔ p <:+: s := by
  unfold jsIncludes
  simp only [decide_eq_true_eq]

/-- When the pattern occurs, the first-occurrence replacement makes the
replacement text an infix of the result. -/
theorem replaceFirst_contains {pat rep : List Char} :
    ∀ doc, pat ≠ [] → jsIncludes pat doc = true →
      rep <:+: replaceFirst pat rep doc := by
  intro doc
  induction doc with
  | nil =>
    intro hne h
    rw [jsIncludes_iff] at h
    exact absurd (List.infix_nil.mp h) hne
  | cons c cs ih =>
    intro hne h
    unfold replaceFirst
    by_cases hs : jsStartsWith pat (c :: cs) = true
    · rw [if_pos hs]
      exact infixOfPre (List.prefix_append _ _)
    · rw [if_neg hs]
      apply List.infix_cons
      apply ih hne
      rw [jsIncludes_iff] at h ⊢
      rcases List.infix_cons_iff.mp h with hp | ht
      · exact absurd ((jsStartsWith_iff _ _).mpr hp) hs
      · exact ht

/-- The output of the injection pass always contains the base marker. -/
theorem injectBase_has_base (baseUrl doc : List Char) :
    jsIncludes (str "<base ") (injectBase baseUrl doc) = true := by
  unfold injectBase
  by_cases hb : jsIncludes (str "<base ") doc = true
  · rw [if_neg (by rw [hb]; simp)]
    exact hb
  · rw [Bool.not_eq_true] at hb
    rw [if_pos (by rw [hb]; simp)]
    have hpre : str "<base " <+: baseTag baseUrl := by
      unfold baseTag
      rw [show str "<base href=" = str "<base " ++ str "href=" from rfl,
        List.append_assoc]
      exact List.prefix_append _ _
    by_cases hh : jsIncludes (str "<head>") doc = true
    · rw [if_pos hh]
      rw [jsIncludes_iff]
      have hrep : str "<base "
          <:+: str "<head>" ++ nl :: baseTag baseUrl := by
        apply infixTrans (infixOfPre hpre)
        apply infixOfSuf
        rw [show str "<head>" ++ nl :: baseTag baseUrl
          = (str "<head>" ++ [nl]) ++ baseTag baseUrl from by simp]
        exact List.suffix_append _ _
      exact infixTrans hrep
        (replaceFirst_contains doc (by decide) hh)
    · rw [if_neg hh]
      rw [jsIncludes_iff]
      exact infixOfPre (hpre.trans (List.prefix_append _ _))

/-- Injection is the identity on a document that already has a base marker. -/
theorem injectBase_of_has {baseUrl doc : List Char}
    (h : jsIncludes (str "<base ") doc = true) :
    injectBase baseUrl doc = doc := by
  unfold injectBase
  rw [if_neg (by rw [h]; simp)]

/-- Truncation after the last slash of a slash-led path is nonempty. -/
theorem upToLastSlash_ne_nil {p : List Char} (hs : str "/" <+: p) :
    upToLastSlash p ≠ [] := by
  unfold upToLastSlash
  intro h
  have h2 : p.reverse.dropWhile (fun c => !(c == '/')) = [] := by
    have h3 := congrArg List.reverse h
    simpa using h3
  have h3 := List.dropWhile_eq_nil_iff.mp h2
  have hm : '/' ∈ p.reverse := by
    rw [List.mem_reverse]
    exact hs.subset (by decide)
  have h4 := h3 '/' hm
  simp at h4

/-- The current path context computed from a normal request path satisfies
the stability conditions of the attribute rewrite. -/
theorem ctxOK_currentPathContext {pathName : List Char}
    (hstart : str "/" <+: pathName) (hnp : ¬ str "//" <+: pathName)
    (hqf : ∀ c ∈ pathName, isQuoteC c = false) :
    ctxOK (currentPathContext pathName) := by
  unfold currentPathContext
  split
  · rename_i hcond
    have hend : jsEndsWith (str "/") pathName = false := by
      have h1 := (Bool.and_eq_true_iff.mp hcond).1
      rwa [Bool.not_eq_true'] at h1
    by_cases heq : pathName ++ str "/" = str "/"
    · rw [if_pos heq]
      exact ⟨Or.inl rfl, by simp⟩
    · rw [if_neg heq]
      constructor
      · refine Or.inr ⟨hstart.trans (List.prefix_append _ _), ?_⟩
        obtain ⟨r, hr⟩ := hstart
        intro hcontra
        rw [← hr] at hcontra
        have h2 : str "/" <+: r ++ str "/" := by
          rw [show (str "//" : List Char) = '/' :: str "/" from rfl,
            show (str "/" ++ r : List Char) ++ str "/"
              = '/' :: (r ++ str "/") from rfl,
            List.cons_prefix_cons] at hcontra
          exact hcontra.2
        cases r with
        | nil =>
          have h4 : pathName = str "/" := by rw [← hr]; rfl
          rw [h4] at hend
          have h5 : jsEndsWith (str "/") (str "/") = true := by decide
          rw [h5] at hend
          exact absurd hend (by simp)
        | cons c r2 =>
          have h4 : ('/' : Char) = c := by
            rw [show (c :: r2) ++ str "/" = c :: (r2 ++ str "/") from rfl,
              show (str "/" : List Char) = ['/'] from rfl,
              List.cons_prefix_cons] at h2
            exact h2.1
          apply hnp
          rw [← hr, ← h4]
          exact ⟨r2, rfl⟩
      · intro x hx
        rcases List.mem_append.mp hx with h1 | h1
        · exact hqf x h1
        · rw [show (str "/" : List Char) = ['/'] from rfl] at h1
          simp only [List.mem_cons, List.not_mem_nil, or_false] at h1
          subst h1
          decide
  · split
    · by_cases heq : upToLastSlash pathName = str "/"
      · rw [if_pos heq]
        exact ⟨Or.inl rfl, by simp⟩
      · rw [if_neg heq]
        constructor
        · refine Or.inr ⟨?_, ?_⟩
          · have hne := upToLastSlash_ne_nil hstart
            have h1 := startsSlash_of_pre (upToLastSlash_pre pathName) hne
              ((jsStartsWith_iff _ _).mpr hstart)
            exact (jsStartsWith_iff _ _).mp h1
          · intro hcontra
            exact hnp (hcontra.trans (upToLastSlash_pre pathName))
        · intro x hx
          exact hqf x ((upToLastSlash_pre pathName).subset hx)
    · by_cases heq : pathName = str "/"
      · rw [if_pos heq]
        exact ⟨Or.inl rfl, by simp⟩
      · rw [if_neg heq]
        exact ⟨Or.inr ⟨hstart, hnp⟩, hqf⟩

/-- C4 (amended): when no validated version CID is in use the rewriter
appends an empty version parameter, and then the full HTML pass (base-tag
injection followed by src/href attribute rewriting) is idempotent for
request paths that begin with a single slash and contain no quote
characters: a second application returns the first result unchanged. -/
theorem rewriteHtml_idempotent (pathName proto host doc : List Char)
    (hstart : str "/" <+: pathName) (hnp : ¬ str "//" <+: pathName)
    (hqf : ∀ c ∈ pathName, isQuoteC c = false) :
    rewriteHtml pathName proto host [] (rewriteHtml pathName proto host [] doc)
      = rewriteHtml pathName proto host [] doc := by
  have hctx : ctxOK (currentPathContext pathName) :=
    ctxOK_currentPathContext hstart hnp hqf
  unfold rewriteHtml
  have hb1 := injectBase_has_base
    (proto ++ str "//" ++ host ++ currentPathContext pathName) doc
  have hb2 : jsIncludes (str "<base ")
      (rewriteAttrs (currentPathContext pathName) []
        (injectBase (proto ++ str "//" ++ host ++ currentPathContext pathName) doc))
      = true := by
    rw [jsIncludes_iff] at hb1 ⊢
    exact base_infix_preserved _ [] _ _ le_rfl hb1
  rw [injectBase_of_has hb2]
  exact rewriteAttrs_idem hctx _

/-- Concrete instance of the amended idempotence statement: a path with one
leading slash and no quotes, a small document with one relative href. -/
theorem rewriteHtml_idempotent_witness :
    (str "/" <+: str "/docs/page.html") ∧ (¬ str "//" <+: str "/docs/page.html") ∧
    (∀ c ∈ str "/docs/page.html", isQuoteC c = false) ∧
    rewriteHtml (str "/docs/page.html") (str "https:") (str "example.com") []
        (rewriteHtml (str "/docs/page.html") (str "https:") (str "example.com") []
          (str "<a href=" ++ dquote :: (str "img/x.png" ++ [dquote, '>'])))
      = rewriteHtml (str "/docs/page.html") (str "https:") (str "example.com") []
          (str "<a href=" ++ dquote :: (str "img/x.png" ++ [dquote, '>'])) :=
  ⟨by decide, by decide, by decide,
    rewriteHtml_idempotent (str "/docs/page.html") (str "https:")
      (str "example.com") (str "<a href=" ++ dquote :: (str "img/x.png" ++ [dquote, '>']))
      (by decide) (by decide) (by decide)⟩

end OrbiterWorker
